import Mathlib

/-!
Verification of the `mwparserfromhell` wikicode tokenizer core
(`src/mwparserfromhell/parser/tokenizer.py`).

The tokenizer is shallowly embedded: the Python class's mutable state
(`_text`, `_head`, `_stacks`, `_global`) becomes an explicit state record
`Tk`, every mutating method becomes a state-passing function, the internal
`BadRoute` exception becomes the `Res.bad` constructor threaded through
results, and the recursive parse loop is given an explicit fuel parameter
(the Python recursion has no syntactic termination measure; a fuel-sufficiency
theorem recovers totality).  Operations that would raise `IndexError` in
Python (accessing the top of an empty stack list) return `none`; the
top-level totality theorem shows `none` is never produced by `tokenize`.

Strings are modelled as `List Char`; Python's `str` segments become
`List Char` values and `"".join` becomes `List.flatten`.
-/

set_option maxHeartbeats 1000000

namespace MWTok

/-! ## Token model

Modelled from the spec: the `tokens` module of the repository is not among
the given source files; §3.2 of the spec fixes the closed set of token
variants and their payloads (`Text` holds a string, `HeadingStart` a level,
`HTMLEntityHex` the stored `x`/`X` character). -/

inductive Token where
  | Text (text : List Char)
  | TemplateOpen
  | TemplateParamSeparator
  | TemplateParamEquals
  | TemplateClose
  | HeadingStart (level : Nat)
  | HeadingEnd
  | HTMLEntityStart
  | HTMLEntityNumeric
  | HTMLEntityHex (char : Char)
  | HTMLEntityEnd
deriving DecidableEq, Repr

/-! ## Context bit constants

Modelled from the spec: the `contexts` module of the repository is not among
the given source files; §3.3 of the spec fixes the bit layout: the three
mutually exclusive template sub-phase bits, their union `TEMPLATE`, the six
heading-level bits `HEADING_LEVEL_1 .. HEADING_LEVEL_6` (one bit each,
`HEADING` their union), and the process-wide `GL_HEADING` bit. -/

def TEMPLATE_NAME : Nat := 1
def TEMPLATE_PARAM_KEY : Nat := 2
def TEMPLATE_PARAM_VALUE : Nat := 4
def TEMPLATE : Nat := TEMPLATE_NAME ||| TEMPLATE_PARAM_KEY ||| TEMPLATE_PARAM_VALUE
def HEADING_LEVEL_1 : Nat := 8
def HEADING : Nat := 8 ||| 16 ||| 32 ||| 64 ||| 128 ||| 256
def GL_HEADING : Nat := 1

/-! ## Frames and tokenizer state -/

/-- One entry of `Tokenizer._stacks`: `[token list, context, textbuffer]`. -/
structure Frame where
  stack : List Token
  context : Nat
  textbuffer : List (List Char)
deriving DecidableEq, Repr

/-- The mutable state of a `Tokenizer` instance: `_text` (the segment list),
`_head`, `_stacks`, `_global`. -/
structure Tk where
  text : List (List Char)
  head : Nat
  stks : List Frame
  glob : Nat
deriving DecidableEq, Repr

/-- The state of a fresh `Tokenizer()`: `_text = None` (modelled as `[]`),
`_head = 0`, `_stacks = []`, `_global = 0`. -/
def initTk : Tk := ⟨[], 0, [], 0⟩

/-- Result of a fallible operation: normal return, or a raised `BadRoute`
carrying the state as of the raise (`fail_route` pops before raising). -/
inductive Res (α : Type) where
  | ok (a : α) (st : Tk)
  | bad (st : Tk)
deriving DecidableEq, Repr

/-- The value returned by `Tokenizer._parse`: either a plain token list
(`return self._pop()`), or the pair `(self._pop(), level)` produced by
`_handle_heading_end` in heading context. -/
inductive ParseVal where
  | plain (toks : List Token)
  | heading (toks : List Token) (level : Nat)
deriving DecidableEq, Repr

/-! ## Input segmentation

`Tokenizer.tokenize` splits the input with
`re.compile(r"([{}\[\]<>|=&#*;:/\-\n])").split(text)` and keeps the
non-empty pieces: every marker character becomes its own one-character
segment and maximal runs of non-marker characters become single segments. -/

/-- Membership in the marker character class of the splitting regex /
`MARKERS` list. -/
def isMarkerChar (c : Char) : Bool :=
  c = '{' || c = '}' || c = '[' || c = ']' || c = '<' || c = '>' || c = '|' ||
  c = '=' || c = '&' || c = '#' || c = '*' || c = ';' || c = ':' || c = '/' ||
  c = '-' || c = '\n'

/-- Split a character list into segments: each marker character alone,
each maximal non-marker run as one segment (the effect of the
capturing-group `re.split` followed by dropping empty strings). -/
def segmentChars : List Char → List (List Char)
  | [] => []
  | c :: rest =>
    let segs := segmentChars rest
    if isMarkerChar c then [c] :: segs
    else
      match segs with
      | [] => [[c]]
      | s :: ss =>
        if isMarkerChar (s.headD ' ') then [c] :: s :: ss else (c :: s) :: ss

/-- The string-valued members of `Tokenizer.MARKERS`, in source order; the
final member `END` is a sentinel handled separately. -/
def markerSegs : List (List Char) :=
  [['{'], ['}'], ['['], [']'], ['<'], ['>'], ['|'], ['='], ['&'], ['#'],
   ['*'], [';'], [':'], ['/'], ['-'], ['\n']]

/-- Membership test of a segment in the string part of `MARKERS`. -/
def isMarkerSeg (s : List Char) : Bool := s ∈ markerSegs

/-! ## The cursor: `Tokenizer._read` -/

/-- Value of a relative read: a segment, or the `START` / `END` sentinels. -/
inductive ReadVal where
  | START
  | END
  | seg (s : List Char)
deriving DecidableEq, Repr

/-- The sentinel/indexing logic of `Tokenizer._read` without the `strict`
failure: `index = head + delta`; `START` when `index < 0` unless
`wrap ∧ |index| ≤ len(text)` (in which case Python's negative indexing
yields the element at `len + index`); `END` when reading past the end. -/
def readVal (st : Tk) (delta : Int) (wrap : Bool) : ReadVal :=
  let index : Int := (st.head : Int) + delta
  let L := st.text.length
  if index < 0 then
    if wrap = false ∨ index.natAbs > L then ReadVal.START
    else ReadVal.seg (st.text.getD (L - index.natAbs) [])
  else
    match st.text[index.toNat]? with
    | some s => ReadVal.seg s
    | none => ReadVal.END

/-! ## Frame-stack operations -/

/-- Concatenation of the textbuffer pieces, Python's `"".join(textbuffer)`. -/
def joinBuf (b : List (List Char)) : List Char := b.flatten

/-- `Tokenizer._push_textbuffer` restricted to one frame: if the textbuffer
is non-empty, append `Text("".join(textbuffer))` to the stack and clear it. -/
def flushFrame (f : Frame) : Frame :=
  match f.textbuffer with
  | [] => f
  | b => { f with stack := f.stack ++ [Token.Text (joinBuf b)], textbuffer := [] }

/-- Apply a function to the top frame; `none` models the `IndexError` Python
would raise on an empty `_stacks`. -/
def mapTop (st : Tk) (g : Frame → Frame) : Option Tk :=
  match st.stks with
  | [] => none
  | f :: rest => some { st with stks := g f :: rest }

/-- `Tokenizer._push`: add a new `[[], context, []]` frame. -/
def push (context : Nat) (st : Tk) : Tk :=
  { st with stks := ⟨[], context, []⟩ :: st.stks }

/-- `Tokenizer._push_textbuffer` on the current state. -/
def pushTextbufferF (st : Tk) : Option Tk := mapTop st flushFrame

/-- `Tokenizer._pop`: flush the textbuffer, then pop the top frame and
return its token list. -/
def popF (st : Tk) : Option (List Token × Tk) :=
  match pushTextbufferF st with
  | none => none
  | some st' =>
    match st'.stks with
    | [] => none
    | f :: rest => some (f.stack, { st' with stks := rest })

/-- `Tokenizer._fail_route`: pop the current frame; the caller wraps the
resulting state in `Res.bad` (the raised `BadRoute`). -/
def failRouteSt (st : Tk) : Option Tk := (popF st).map (·.2)

/-- `Tokenizer._write_text`: append a string to the current textbuffer. -/
def writeTextF (st : Tk) (s : List Char) : Option Tk :=
  mapTop st (fun f => { f with textbuffer := f.textbuffer ++ [s] })

/-- `Tokenizer._write`: flush the textbuffer, then append the token. -/
def writeTokF (st : Tk) (t : Token) : Option Tk :=
  match pushTextbufferF st with
  | none => none
  | some st' => mapTop st' (fun f => { f with stack := f.stack ++ [t] })

/-- `Tokenizer._write_all`: if the list starts with a `Text` token, move its
string into the textbuffer; then flush and extend the stack with the rest. -/
def writeAllF (st : Tk) (ts : List Token) : Option Tk :=
  match ts with
  | Token.Text t :: rest =>
    match writeTextF st t with
    | none => none
    | some st1 =>
      match pushTextbufferF st1 with
      | none => none
      | some st2 => mapTop st2 (fun f => { f with stack := f.stack ++ rest })
  | _ =>
    match pushTextbufferF st with
    | none => none
    | some st2 => mapTop st2 (fun f => { f with stack := f.stack ++ ts })

/-- The full `Tokenizer._read`, with the `strict` end-of-input failure. -/
def readF (st : Tk) (delta : Int) (wrap strict : Bool) : Option (Res ReadVal) :=
  match readVal st delta wrap with
  | ReadVal.END =>
    if strict then
      match failRouteSt st with
      | none => none
      | some st' => some (Res.bad st')
    else some (Res.ok ReadVal.END st)
  | v => some (Res.ok v st)

/-! ## Template helpers -/

/-- Python whitespace for `str.strip()` (the characters relevant to the
single-byte range; the inputs of interest contain only ASCII). -/
def isSpaceChar (c : Char) : Bool :=
  c = ' ' || c = '\t' || c = '\n' || c = '\r' || c = '\x0b' || c = '\x0c'

/-- `str.strip()`: drop whitespace from both ends. -/
def trimWs (s : List Char) : List Char :=
  (s.dropWhile isSpaceChar).reverse.dropWhile isSpaceChar |>.reverse

/-- The strings of the `Text` tokens of a stack, in order. -/
def textsOf (ts : List Token) : List (List Char) :=
  ts.filterMap (fun t => match t with | Token.Text s => some s | _ => none)

/-- `Tokenizer._verify_template_name`: flush the textbuffer; join the `Text`
tokens of the frame; fail the route if the stripped join is non-empty and
still contains a newline. -/
def verifyTemplateName (st : Tk) : Option (Res Unit) :=
  match pushTextbufferF st with
  | none => none
  | some st1 =>
    match st1.stks with
    | [] => none
    | f :: _ =>
      if f.stack ≠ [] then
        let t := joinBuf (textsOf f.stack)
        if trimWs t ≠ [] ∧ '\n' ∈ trimWs t then
          match failRouteSt st1 with
          | none => none
          | some st2 => some (Res.bad st2)
        else some (Res.ok () st1)
      else some (Res.ok () st1)

/-- Read/modify the top frame's context (`Tokenizer._context`). -/
def topContext (st : Tk) : Nat :=
  match st.stks with
  | [] => 0
  | f :: _ => f.context

/-- Set the top frame's context. -/
def setContext (st : Tk) (c : Nat) : Option Tk :=
  mapTop st (fun f => { f with context := c })

/-- `Tokenizer._handle_template_param`: possibly verify the name, update the
sub-phase bits, and write a `TemplateParamSeparator`. -/
def handleTemplateParam (st : Tk) : Option (Res Unit) :=
  let step1 : Option (Res Tk) :=
    if topContext st &&& TEMPLATE_NAME ≠ 0 then
      match verifyTemplateName st with
      | none => none
      | some (Res.bad st') => some (Res.bad st')
      | some (Res.ok _ st') =>
        match setContext st' (topContext st' ^^^ TEMPLATE_NAME) with
        | none => none
        | some st'' => some (Res.ok st'' st'')
    else some (Res.ok st st)
  match step1 with
  | none => none
  | some (Res.bad st') => some (Res.bad st')
  | some (Res.ok st1 _) =>
    let st2opt :=
      if topContext st1 &&& TEMPLATE_PARAM_VALUE ≠ 0 then
        setContext st1 (topContext st1 ^^^ TEMPLATE_PARAM_VALUE)
      else some st1
    match st2opt with
    | none => none
    | some st2 =>
      match setContext st2 (topContext st2 ||| TEMPLATE_PARAM_KEY) with
      | none => none
      | some st3 =>
        match writeTokF st3 Token.TemplateParamSeparator with
        | none => none
        | some st4 => some (Res.ok () st4)

/-- `Tokenizer._handle_template_param_value`: move from key to value phase
and write a `TemplateParamEquals`. -/
def handleTemplateParamValue (st : Tk) : Option Tk :=
  match setContext st (topContext st ^^^ TEMPLATE_PARAM_KEY) with
  | none => none
  | some st1 =>
    match setContext st1 (topContext st1 ||| TEMPLATE_PARAM_VALUE) with
    | none => none
    | some st2 => writeTokF st2 Token.TemplateParamEquals

/-- `Tokenizer._handle_template_end`: verify the name if still in the name
phase, advance the head past the first `}`, and pop. -/
def handleTemplateEnd (st : Tk) : Option (Res ParseVal) :=
  let step1 : Option (Res Tk) :=
    if topContext st &&& TEMPLATE_NAME ≠ 0 then
      match verifyTemplateName st with
      | none => none
      | some (Res.bad st') => some (Res.bad st')
      | some (Res.ok _ st') => some (Res.ok st' st')
    else some (Res.ok st st)
  match step1 with
  | none => none
  | some (Res.bad st') => some (Res.bad st')
  | some (Res.ok st1 _) =>
    match popF { st1 with head := st1.head + 1 } with
    | none => none
    | some (toks, st2) => some (Res.ok (ParseVal.plain toks) st2)

/-! ## HTML entities -/

/-- Hexadecimal digit test, Python's `string.hexdigits` membership. -/
def isHexDigitC (c : Char) : Bool :=
  c.isDigit || ('a' ≤ c && c ≤ 'f') || ('A' ≤ c && c ≤ 'F')

/-- ASCII alphanumeric test, membership in
`string.digits + string.ascii_letters`. -/
def isAlnumC (c : Char) : Bool := c.isDigit || c.isAlpha

/-- Value of a decimal digit string (`int(this)` on a validated string). -/
def decVal (s : List Char) : Nat :=
  s.foldl (fun a c => a * 10 + (c.toNat - 48)) 0

/-- Value of a single hexadecimal digit. -/
def hexDigit (c : Char) : Nat :=
  if c.isDigit then c.toNat - 48
  else if 'a' ≤ c && c ≤ 'f' then c.toNat - 87
  else c.toNat - 55

/-- Value of a hexadecimal digit string (`int(this, 16)` on a validated
string). -/
def hexVal (s : List Char) : Nat :=
  s.foldl (fun a c => a * 16 + hexDigit c) 0

/-- Modelled from the spec: the named-entity table
(`htmlentities.entitydefs` from the absent `compat` module); §4.7 requires
membership of the name in the standard HTML named-entity table, keys without
the trailing semicolon.  Only a representative sample is listed; none of the
settled claims depends on the exact extent of this table. -/
def entityNames : List (List Char) :=
  [['a','m','p'], ['l','t'], ['g','t'], ['q','u','o','t'],
   ['n','b','s','p'], ['c','o','p','y'], ['s','e','c','t']]

/-- `Tokenizer._really_parse_entity`: parse and validate an HTML entity in
the freshly pushed frame. -/
def reallyParseEntity (st : Tk) : Option (Res Unit) :=
  match writeTokF st Token.HTMLEntityStart with
  | none => none
  | some st1 =>
    let st2 := { st1 with head := st1.head + 1 }
    match readF st2 0 false true with
    | none => none
    | some (Res.bad stb) => some (Res.bad stb)
    | some (Res.ok (ReadVal.seg cur) st3) =>
      if cur = ['#'] then
        -- numeric entity
        match writeTokF st3 Token.HTMLEntityNumeric with
        | none => none
        | some st4 =>
          let st5 := { st4 with head := st4.head + 1 }
          match readF st5 0 false true with
          | none => none
          | some (Res.bad stb) => some (Res.bad stb)
          | some (Res.ok (ReadVal.seg cur2) st6) =>
            match cur2 with
            | [] => none  -- segments are non-empty; `this[0]` would crash
            | c0 :: ctail =>
              if c0.toLower = 'x' then
                match writeTokF st6 (Token.HTMLEntityHex c0) with
                | none => none
                | some st7 =>
                  if ctail = [] then
                    match failRouteSt st7 with
                    | none => none
                    | some st8 => some (Res.bad st8)
                  else entityTail st7 ctail true true
              else entityTail st6 (c0 :: ctail) true false
          | some (Res.ok _ _) => none  -- strict read yields a segment
      else entityTail st3 cur false false
    | some (Res.ok _ _) => none  -- strict read yields a segment
where
  /-- The shared tail of `_really_parse_entity` after `this`, `numeric` and
  `hexadecimal` are determined: character-class validation, the `;` check,
  the numeric range / named-table check, and the final writes. -/
  entityTail (st : Tk) (cur : List Char) (numeric hexadecimal : Bool) :
      Option (Res Unit) :=
    let valid : Char → Bool :=
      if hexadecimal then isHexDigitC
      else if numeric then Char.isDigit
      else isAlnumC
    if ¬ (cur.all valid) then
      match failRouteSt st with
      | none => none
      | some st' => some (Res.bad st')
    else
      let stA := { st with head := st.head + 1 }
      if readVal stA 0 false ≠ ReadVal.seg [';'] then
        match failRouteSt stA with
        | none => none
        | some st' => some (Res.bad st')
      else
        let rangeOk : Option (Res Unit) :=
          if numeric then
            let test := if hexadecimal then hexVal cur else decVal cur
            if test < 1 ∨ test > 0x10FFFF then
              match failRouteSt stA with
              | none => none
              | some st' => some (Res.bad st')
            else some (Res.ok () stA)
          else
            if cur ∉ entityNames then
              match failRouteSt stA with
              | none => none
              | some st' => some (Res.bad st')
            else some (Res.ok () stA)
        match rangeOk with
        | none => none
        | some (Res.bad st') => some (Res.bad st')
        | some (Res.ok _ stB) =>
          match writeTokF stB (Token.Text cur) with
          | none => none
          | some stC =>
            match writeTokF stC Token.HTMLEntityEnd with
            | none => none
            | some stD => some (Res.ok () stD)

/-- `Tokenizer._parse_entity`: push a fresh frame, speculatively parse the
entity; on bad route restore the head and write the `&` literally, on
success merge the entity frame into the parent. -/
def parseEntity (st : Tk) : Option Tk :=
  let reset := st.head
  let st0 := push 0 st
  match reallyParseEntity st0 with
  | none => none
  | some (Res.bad st1) =>
    match readVal { st1 with head := reset } 0 false with
    | ReadVal.seg s => writeTextF { st1 with head := reset } s
    | _ => none
  | some (Res.ok _ st1) =>
    match popF st1 with
    | none => none
    | some (toks, st2) => writeAllF st2 toks

/-! ## Headings: the `=`-run counter -/

/-- Floor base-2 logarithm: the `int(log(x, 2))` of the source on the
power-of-two ratios that occur as heading contexts; fuel-structural so
that concrete runs reduce in the kernel. -/
def log2fl : Nat -> Nat -> Nat
  | 0, _ => 0
  | fuel + 1, n => if 2 <= n then log2fl fuel (n / 2) + 1 else 0

/-- `intLog2 n` is `log2fl` with enough fuel. -/
def intLog2 (n : Nat) : Nat := log2fl n n

/-- Count the leading `['=']` segments of a list; models the
`while self._read() == "=": best += 1; head += 1` loops. -/
def countEqSegs : List (List Char) → Nat
  | [] => 0
  | s :: rest => if s = ['='] then countEqSegs rest + 1 else 0

/-! ## The main parse loop

`Tokenizer._parse` pushes a frame and loops; the speculative sub-parsers
`_parse_template`, `_parse_heading` and `_handle_heading_end` are split into
a non-recursive "after" part (handling the success / bad-route branches)
and the recursive call placed in the loop body, so that the whole recursion
is structural in the fuel. -/

/-- The branches of `Tokenizer._parse_template` around its recursive
`self._parse(contexts.TEMPLATE_NAME)` call: on bad route restore
`head = reset` and write one `{` literally; on success write
`TemplateOpen`, the returned tokens, `TemplateClose`. -/
def tmplAfter (reset : Nat) (r : Res ParseVal) : Option Tk :=
  match r with
  | Res.bad st1 =>
    match readVal { st1 with head := reset } 0 false with
    | ReadVal.seg s => writeTextF { st1 with head := reset } s
    | _ => none
  | Res.ok v st1 =>
    match v with
    | ParseVal.plain ts =>
      match writeTokF st1 Token.TemplateOpen with
      | none => none
      | some st2 =>
        match writeAllF st2 ts with
        | none => none
        | some st3 => writeTokF st3 Token.TemplateClose
    | ParseVal.heading _ _ => none  -- unreachable: a template-name parse returns a plain list

/-- The branches of `Tokenizer._parse_heading` around its recursive
`self._parse(context)` call, including the `finally` clearing of
`GL_HEADING`: on bad route leave the head on the last `=` and write the
whole run literally; on success write `HeadingStart`, any surplus `=`,
the title and `HeadingEnd`. -/
def headingAfter (reset best : Nat) (r : Res ParseVal) : Option Tk :=
  match r with
  | Res.bad st1 =>
    match writeTextF { st1 with head := reset + best - 1 }
        (List.replicate best '=') with
    | none => none
    | some st2 => some { st2 with glob := st2.glob ^^^ GL_HEADING }
  | Res.ok v st1 =>
    match v with
    | ParseVal.heading title level =>
      match writeTokF st1 (Token.HeadingStart level) with
      | none => none
      | some st2 =>
        let st3opt :=
          if level < best then
            writeTextF st2 (List.replicate (best - level) '=')
          else some st2
        match st3opt with
        | none => none
        | some st3 =>
          match writeAllF st3 title with
          | none => none
          | some st4 =>
            match writeTokF st4 Token.HeadingEnd with
            | none => none
            | some st5 => some { st5 with glob := st5.glob ^^^ GL_HEADING }
    | ParseVal.plain _ => none  -- unreachable: a heading parse returns `(tokens, level)`

/-- The branches of `Tokenizer._handle_heading_end` around its recursive
`self._parse(self._context)` call: on bad route write any surplus `=`,
leave the head on the last `=` and return `(pop(), level)`; on success
write the run literally, merge the later tokens and return
`(pop(), after_level)`. -/
def headingEndAfter (reset best level : Nat) (r : Res ParseVal) :
    Option (Res ParseVal) :=
  match r with
  | Res.bad st1 =>
    let st2opt :=
      if level < best then
        writeTextF st1 (List.replicate (best - level) '=')
      else some st1
    match st2opt with
    | none => none
    | some st2 =>
      match popF { st2 with head := reset + best - 1 } with
      | none => none
      | some (toks, st3) => some (Res.ok (ParseVal.heading toks level) st3)
  | Res.ok v st1 =>
    match v with
    | ParseVal.heading after afterLevel =>
      match writeTextF st1 (List.replicate best '=') with
      | none => none
      | some st2 =>
        match writeAllF st2 after with
        | none => none
        | some st3 =>
          match popF st3 with
          | none => none
          | some (toks, st4) =>
            some (Res.ok (ParseVal.heading toks afterLevel) st4)
    | ParseVal.plain _ => none  -- unreachable: the nested heading parse returns `(tokens, level)`

/-- The loop body of `Tokenizer._parse` (the frame has already been pushed),
with fuel making the recursion structural.  Branches follow the source
dispatch order exactly. -/
def parseLoopF : Nat → Tk → Option (Res ParseVal)
  | 0, _ => none
  | fuel + 1, st =>
    match readVal st 0 false with
    | ReadVal.START => none  -- unreachable: `head ≥ 0`
    | ReadVal.END =>
      -- `if this is self.END`
      if topContext st &&& (TEMPLATE ||| HEADING) ≠ 0 then
        match failRouteSt st with
        | none => none
        | some st' => some (Res.bad st')
      else
        match popF st with
        | none => none
        | some (toks, st') => some (Res.ok (ParseVal.plain toks) st')
    | ReadVal.seg s =>
      if isMarkerSeg s = false then
        -- `if this not in self.MARKERS`
        match writeTextF st s with
        | none => none
        | some st1 => parseLoopF fuel { st1 with head := st1.head + 1 }
      else
        let prev := readVal st (-1) false
        let next := readVal st 1 false
        if s = ['{'] ∧ next = ReadVal.seg ['{'] then
          -- `self._parse_template()`
          match parseLoopF fuel
              (push TEMPLATE_NAME { st with head := st.head + 2 }) with
          | none => none
          | some r =>
            match tmplAfter st.head r with
            | none => none
            | some st2 => parseLoopF fuel { st2 with head := st2.head + 1 }
        else if s = ['|'] ∧ topContext st &&& TEMPLATE ≠ 0 then
          match handleTemplateParam st with
          | none => none
          | some (Res.bad st') => some (Res.bad st')
          | some (Res.ok _ st1) => parseLoopF fuel { st1 with head := st1.head + 1 }
        else if s = ['='] ∧ topContext st &&& TEMPLATE_PARAM_KEY ≠ 0 then
          match handleTemplateParamValue st with
          | none => none
          | some st1 => parseLoopF fuel { st1 with head := st1.head + 1 }
        else if s = ['}'] ∧ next = ReadVal.seg ['}'] ∧
            topContext st &&& TEMPLATE ≠ 0 then
          handleTemplateEnd st
        else if (prev = ReadVal.seg ['\n'] ∨ prev = ReadVal.START) ∧
            s = ['='] ∧ st.glob &&& GL_HEADING = 0 then
          -- `self._parse_heading()`: set the global bit, count the run,
          -- then the recursive `self._parse(context)`
          let st0 := { st with glob := st.glob ||| GL_HEADING }
          let best := 1 + countEqSegs (st0.text.drop (st0.head + 1))
          let ctx := HEADING_LEVEL_1 <<< min (best - 1) 5
          match parseLoopF fuel (push ctx { st0 with head := st0.head + best }) with
          | none => none
          | some r =>
            match headingAfter st.head best r with
            | none => none
            | some st2 => parseLoopF fuel { st2 with head := st2.head + 1 }
        else if s = ['='] ∧ topContext st &&& HEADING ≠ 0 then
          -- `return self._handle_heading_end()`
          let best := 1 + countEqSegs (st.text.drop (st.head + 1))
          let current := intLog2 (topContext st / HEADING_LEVEL_1) + 1
          let level := min current (min best 6)
          match parseLoopF fuel
              (push (topContext st) { st with head := st.head + best }) with
          | none => none
          | some r => headingEndAfter st.head best level r
        else if s = ['\n'] ∧ topContext st &&& HEADING ≠ 0 then
          match failRouteSt st with
          | none => none
          | some st' => some (Res.bad st')
        else if s = ['&'] then
          match parseEntity st with
          | none => none
          | some st1 => parseLoopF fuel { st1 with head := st1.head + 1 }
        else
          match writeTextF st s with
          | none => none
          | some st1 => parseLoopF fuel { st1 with head := st1.head + 1 }

/-- `Tokenizer._parse(context)`: push a frame and run the loop. -/
def parseF (fuel : Nat) (context : Nat) (st : Tk) : Option (Res ParseVal) :=
  parseLoopF fuel (push context st)

/-- Fuel sufficient for any parse from the given state (proved below);
linear because the fuel bounds the call depth, not the total work. -/
def fuelFor (st : Tk) : Nat := st.text.length + 4

/-- `Tokenizer.tokenize`: segment the input into `_text` and parse with the
default context.  Note that `_head`, `_stacks` and `_global` are *not*
reset: the result on a reused instance depends on the leftover state. -/
def tokenize (st : Tk) (s : List Char) : Option (Res ParseVal) :=
  let st' := { st with text := segmentChars s }
  parseF (fuelFor st') 0 st'

/-- Tokenize on a fresh `Tokenizer()` instance. -/
def runTokenize (s : List Char) : Option (Res ParseVal) := tokenize initTk s

/-! ## Invariant vocabulary -/

/-- Is the token a `Text` token? -/
def isTextTok : Token → Bool
  | Token.Text _ => true
  | _ => false

/-- No two consecutive tokens are both `Text` (property P3 / I5). -/
def natB : List Token → Bool
  | t1 :: t2 :: r => (!(isTextTok t1 && isTextTok t2)) && natB (t2 :: r)
  | _ => true

/-- The list does not end in a `Text` token (or is empty). -/
def endsNT (l : List Token) : Bool :=
  match l.getLast? with
  | some (Token.Text _) => false
  | _ => true

/-- The list does not begin with a `Text` token (or is empty). -/
def headNT (l : List Token) : Bool :=
  match l.head? with
  | some (Token.Text _) => false
  | _ => true

/-- The frame's stack as it would be after flushing the textbuffer. -/
def flushedStack (f : Frame) : List Token := (flushFrame f).stack

/-- The canonical literal rendering of a token stream (claim C2): `Text`
strings verbatim, `{{`/`}}`/`|`/`=` for the template tokens, `&`/`#`/the
stored char/`;` for the entity tokens, and for `HeadingStart(level)` and its
matching `HeadingEnd` a run of `level` many `=` characters; the second
argument carries the level of the most recently opened heading. -/
def renderToks : List Token → Nat → List Char
  | [], _ => []
  | Token.Text s :: r, lv => s ++ renderToks r lv
  | Token.TemplateOpen :: r, lv => '{' :: '{' :: renderToks r lv
  | Token.TemplateClose :: r, lv => '}' :: '}' :: renderToks r lv
  | Token.TemplateParamSeparator :: r, lv => '|' :: renderToks r lv
  | Token.TemplateParamEquals :: r, lv => '=' :: renderToks r lv
  | Token.HeadingStart l :: r, _ => List.replicate l '=' ++ renderToks r l
  | Token.HeadingEnd :: r, lv => List.replicate lv '=' ++ renderToks r lv
  | Token.HTMLEntityStart :: r, lv => '&' :: renderToks r lv
  | Token.HTMLEntityNumeric :: r, lv => '#' :: renderToks r lv
  | Token.HTMLEntityHex c :: r, lv => c :: renderToks r lv
  | Token.HTMLEntityEnd :: r, lv => ';' :: renderToks r lv

/-- The heading level in effect after rendering a token stream. -/
def levelAfter : List Token → Nat → Nat
  | [], lv => lv
  | Token.HeadingStart l :: r, _ => levelAfter r l
  | _ :: r, lv => levelAfter r lv

/-- No `HeadingStart` or `HeadingEnd` token occurs in the list. -/
def noHeadTB (l : List Token) : Bool :=
  l.all fun t =>
    match t with
    | Token.HeadingStart _ => false
    | Token.HeadingEnd => false
    | _ => true

/-- Every `HeadingStart` level is between 1 and 6 (property P6). -/
def levOKB (l : List Token) : Bool :=
  l.all fun t =>
    match t with
    | Token.HeadingStart lv => decide (1 ≤ lv ∧ lv ≤ 6)
    | _ => true

/-- Concatenation of `n` consecutive segments starting at index `a`. -/
def joinSlice (text : List (List Char)) (a n : Nat) : List Char :=
  ((text.drop a).take n).flatten

/-- The frame contexts reachable in a run: the default `0`, the template
sub-phases, and the six single heading bits. -/
def ctxVals : List Nat := [0, 1, 2, 4, 8, 16, 32, 64, 128, 256]

/-- The failure condition of `_verify_template_name` on a flushed stack. -/
def badName (ts : List Token) : Bool :=
  ts ≠ [] && (trimWs (joinBuf (textsOf ts)) ≠ [] &&
    '\n' ∈ trimWs (joinBuf (textsOf ts)))

/-- `_write_text` at the frame level. -/
def wtFrame (f : Frame) (s : List Char) : Frame :=
  { f with textbuffer := f.textbuffer ++ [s] }

/-! ## Algebra of the invariant vocabulary -/

theorem renderToks_append (a b : List Token) (lv : Nat) :
    renderToks (a ++ b) lv = renderToks a lv ++ renderToks b (levelAfter a lv) := by
  induction a generalizing lv with
  | nil => simp [renderToks, levelAfter]
  | cons t r ih =>
    cases t <;> simp [renderToks, levelAfter, ih]

theorem levelAfter_append (a b : List Token) (lv : Nat) :
    levelAfter (a ++ b) lv = levelAfter b (levelAfter a lv) := by
  induction a generalizing lv with
  | nil => simp [levelAfter]
  | cons t r ih =>
    cases t <;> simp [levelAfter, ih]

theorem natB_cons_cons {t1 t2 : Token} {r : List Token} :
    natB (t1 :: t2 :: r) =
      ((!(isTextTok t1 && isTextTok t2)) && natB (t2 :: r)) := rfl

theorem natB_sublist_tail {t : Token} {r : List Token} (h : natB (t :: r) = true) :
    natB r = true := by
  cases r with
  | nil => rfl
  | cons t2 r2 =>
    rw [natB_cons_cons, Bool.and_eq_true] at h
    exact h.2

theorem natB_append {xs ys : List Token} (hx : natB xs = true) (hy : natB ys = true)
    (hmid : endsNT xs = true ∨ headNT ys = true) : natB (xs ++ ys) = true := by
  induction xs with
  | nil => simpa using hy
  | cons t r ih =>
    cases r with
    | nil =>
      cases ys with
      | nil => simpa using hx
      | cons u s =>
        have hmid' : isTextTok t = false ∨ isTextTok u = false := by
          rcases hmid with h | h
          · left
            cases t <;> simp [isTextTok] <;> simp [endsNT, List.getLast?] at h
          · right
            cases u <;> simp [isTextTok] <;> simp [headNT] at h
        simp only [List.cons_append, List.nil_append, natB_cons_cons,
          Bool.and_eq_true, Bool.not_eq_true']
        refine ⟨?_, hy⟩
        rcases hmid' with h | h <;> simp [h]
    | cons t2 r2 =>
      rw [natB_cons_cons, Bool.and_eq_true] at hx
      obtain ⟨h1, h2⟩ := hx
      have hend : endsNT (t :: t2 :: r2) = endsNT (t2 :: r2) := by
        simp [endsNT, List.getLast?_cons_cons]
      rw [hend] at hmid
      have hrec := ih h2 hmid
      simp only [List.cons_append, natB_cons_cons, Bool.and_eq_true]
      constructor
      · simpa using h1
      · simpa [List.cons_append] using hrec

theorem endsNT_append_singleton (xs : List Token) (t : Token) :
    endsNT (xs ++ [t]) = !(isTextTok t) := by
  cases t <;> simp [endsNT, isTextTok, List.getLast?_append]

theorem natB_snoc_of_nonText {xs : List Token} {t : Token} (hx : natB xs = true)
    (ht : isTextTok t = false) : natB (xs ++ [t]) = true := by
  refine natB_append hx (by cases t <;> simp_all [natB]) (Or.inr ?_)
  cases t <;> simp_all [headNT, isTextTok]

theorem natB_snoc_text {xs : List Token} {s : List Char} (hx : natB xs = true)
    (hend : endsNT xs = true) : natB (xs ++ [Token.Text s]) = true :=
  natB_append hx (by simp [natB]) (Or.inl hend)

theorem noHeadTB_append {xs ys : List Token} :
    noHeadTB (xs ++ ys) = (noHeadTB xs && noHeadTB ys) := by
  simp [noHeadTB, List.all_append]

theorem levOKB_append {xs ys : List Token} :
    levOKB (xs ++ ys) = (levOKB xs && levOKB ys) := by
  simp [levOKB, List.all_append]

theorem levelAfter_of_noHead (xs : List Token) :
    noHeadTB xs = true → ∀ lv, levelAfter xs lv = lv := by
  induction xs with
  | nil => intro _ _; rfl
  | cons t r ih =>
    intro h lv
    simp only [noHeadTB, List.all_cons, Bool.and_eq_true] at h
    obtain ⟨h1, h2⟩ := h
    have ih' := ih (by simpa [noHeadTB] using h2)
    cases t with
    | HeadingStart l => simp at h1
    | HeadingEnd => simp at h1
    | Text s => exact ih' lv
    | TemplateOpen => exact ih' lv
    | TemplateParamSeparator => exact ih' lv
    | TemplateParamEquals => exact ih' lv
    | TemplateClose => exact ih' lv
    | HTMLEntityStart => exact ih' lv
    | HTMLEntityNumeric => exact ih' lv
    | HTMLEntityHex c => exact ih' lv
    | HTMLEntityEnd => exact ih' lv

/-! ### Slice algebra -/

theorem joinSlice_zero (t : List (List Char)) (a : Nat) : joinSlice t a 0 = [] := by
  simp [joinSlice]

theorem joinSlice_add (t : List (List Char)) (a n m : Nat) :
    joinSlice t a (n + m) = joinSlice t a n ++ joinSlice t (a + n) m := by
  simp [joinSlice, List.take_add, List.drop_drop]

theorem joinSlice_one (t : List (List Char)) (a : Nat) :
    joinSlice t a 1 = t.getD a [] := by
  rcases Nat.lt_or_ge a t.length with h | h
  · have hd : t.drop a = t[a] :: t.drop (a + 1) := List.drop_eq_getElem_cons h
    rw [joinSlice, hd, List.take_succ_cons, List.take_zero, List.flatten_cons,
      List.flatten_nil, List.append_nil, List.getD_eq_getElem?_getD,
      List.getElem?_eq_getElem h]
    rfl
  · have hd : t.drop a = [] := List.drop_eq_nil_of_le h
    have h2 : t[a]? = none := List.getElem?_eq_none h
    rw [joinSlice, hd, List.getD_eq_getElem?_getD, h2]
    rfl

theorem joinSlice_all {t : List (List Char)} {a n : Nat} (h : t.length ≤ a + n) :
    joinSlice t a n = (t.drop a).flatten := by
  simp only [joinSlice]
  rw [List.take_of_length_le (by simp; omega)]

theorem renderToks_snoc_text (xs : List Token) (s : List Char) (lv : Nat) :
    renderToks (xs ++ [Token.Text s]) lv = renderToks xs lv ++ s := by
  rw [renderToks_append]
  simp [renderToks]

theorem natB_snoc_text_iff (xs : List Token) (s : List Char) :
    natB (xs ++ [Token.Text s]) = (natB xs && endsNT xs) := by
  induction xs with
  | nil => simp [natB, endsNT]
  | cons t r ih =>
    cases r with
    | nil =>
      cases t <;> simp [natB, endsNT, isTextTok, natB_cons_cons, List.getLast?]
    | cons t2 r2 =>
      have hend : endsNT (t :: t2 :: r2) = endsNT (t2 :: r2) := by
        simp [endsNT, List.getLast?_cons_cons]
      simp only [List.cons_append, natB_cons_cons]
      rw [← List.cons_append, ih, hend, Bool.and_assoc]

theorem levOKB_snoc_text (xs : List Token) (s : List Char) :
    levOKB (xs ++ [Token.Text s]) = levOKB xs := by
  simp [levOKB_append, levOKB]

theorem noHeadTB_snoc_text (xs : List Token) (s : List Char) :
    noHeadTB (xs ++ [Token.Text s]) = noHeadTB xs := by
  simp [noHeadTB_append, noHeadTB]

/-! ### Segmentation facts -/

theorem segmentChars_flatten (l : List Char) : (segmentChars l).flatten = l := by
  induction l with
  | nil => rfl
  | cons c rest ih =>
    rw [segmentChars]
    by_cases hm : isMarkerChar c
    · simp [hm, ih]
    · simp only [hm, if_false, Bool.false_eq_true]
      rcases hsegs : segmentChars rest with _ | ⟨s, ss⟩
      · simp [hsegs] at ih
        simp [ih]
      · rw [hsegs] at ih
        by_cases hh : isMarkerChar (s.headD ' ')
        · simp only [List.headD_eq_head?_getD] at hh
          simp [hh, ← ih]
        · simp only [List.headD_eq_head?_getD] at hh
          simp [hh, ← ih]

theorem segmentChars_ne_nil (l : List Char) : ∀ s ∈ segmentChars l, s ≠ [] := by
  induction l with
  | nil => simp [segmentChars]
  | cons c rest ih =>
    intro s hs
    rw [segmentChars] at hs
    by_cases hm : isMarkerChar c
    · simp [hm] at hs
      rcases hs with rfl | hs
      · simp
      · exact ih s hs
    · simp only [hm, if_false, Bool.false_eq_true] at hs
      rcases hsegs : segmentChars rest with _ | ⟨s0, ss⟩
      · rw [hsegs] at hs
        simp at hs
        simp [hs]
      · rw [hsegs] at hs
        replace hs : s ∈ (if isMarkerChar (s0.headD ' ') = true then
            [c] :: s0 :: ss else (c :: s0) :: ss) := hs
        by_cases hh : isMarkerChar (s0.headD ' ')
        · rw [if_pos hh] at hs
          rcases List.mem_cons.mp hs with rfl | hs2
          · simp
          · rcases List.mem_cons.mp hs2 with rfl | hs3
            · exact ih s (hsegs ▸ List.mem_cons_self s ss)
            · exact ih s (hsegs ▸ List.mem_cons_of_mem s0 hs3)
        · rw [if_neg hh] at hs
          rcases List.mem_cons.mp hs with rfl | hs2
          · simp
          · exact ih s (hsegs ▸ List.mem_cons_of_mem s0 hs2)

/-! ### Read and state-operation laws -/

theorem readVal_zero (st : Tk) :
    readVal st 0 false =
      (match st.text[st.head]? with
       | some s => ReadVal.seg s
       | none => ReadVal.END) := by
  simp [readVal]

theorem readVal_zero_ne_START (st : Tk) : readVal st 0 false ≠ ReadVal.START := by
  rw [readVal_zero]
  rcases st.text[st.head]? with _ | s <;> simp

theorem readVal_zero_seg {st : Tk} {s : List Char}
    (h : readVal st 0 false = ReadVal.seg s) : st.text[st.head]? = some s := by
  rw [readVal_zero] at h
  rcases hx : st.text[st.head]? with _ | u <;> rw [hx] at h <;> simp_all

theorem readVal_zero_end {st : Tk} (h : readVal st 0 false = ReadVal.END) :
    st.text.length ≤ st.head := by
  rw [readVal_zero] at h
  rcases hx : st.text[st.head]? with _ | u
  · exact List.getElem?_eq_none_iff.mp hx
  · rw [hx] at h; simp at h

theorem readVal_one_seg {st : Tk} {s : List Char}
    (h : readVal st 1 false = ReadVal.seg s) : st.text[st.head + 1]? = some s := by
  simp only [readVal] at h
  have h0 : ¬ ((st.head : Int) + 1 < 0) := by omega
  rw [if_neg h0] at h
  have : ((st.head : Int) + 1).toNat = st.head + 1 := by omega
  rw [this] at h
  rcases hx : st.text[st.head + 1]? with _ | u <;> rw [hx] at h <;> simp_all

theorem topContext_eq {st : Tk} {f : Frame} {rest : List Frame}
    (h : st.stks = f :: rest) : topContext st = f.context := by
  simp [topContext, h]

theorem flushFrame_context (f : Frame) : (flushFrame f).context = f.context := by
  rw [flushFrame]
  rcases f.textbuffer with _ | ⟨b, bs⟩ <;> rfl

theorem flushFrame_textbuffer (f : Frame) : (flushFrame f).textbuffer = [] ∨ f.textbuffer = [] := by
  rw [flushFrame]
  rcases hb : f.textbuffer with _ | ⟨b, bs⟩ <;> simp

theorem flushedStack_mk (s : List Token) (c : Nat) :
    flushedStack ⟨s, c, []⟩ = s := rfl

theorem flushedStack_flushFrame (f : Frame) :
    flushedStack (flushFrame f) = flushedStack f := by
  rcases f with ⟨fs, fc, fb⟩
  rcases fb with _ | ⟨b, bs⟩ <;> rfl

theorem writeTextF_eq {st : Tk} {f : Frame} {rest : List Frame}
    (h : st.stks = f :: rest) (s : List Char) :
    writeTextF st s = some { st with stks := wtFrame f s :: rest } := by
  simp [writeTextF, mapTop, h, wtFrame]

theorem pushTextbufferF_eq {st : Tk} {f : Frame} {rest : List Frame}
    (h : st.stks = f :: rest) :
    pushTextbufferF st = some { st with stks := flushFrame f :: rest } := by
  simp [pushTextbufferF, mapTop, h]

theorem popF_eq {st : Tk} {f : Frame} {rest : List Frame}
    (h : st.stks = f :: rest) :
    popF st = some (flushedStack f, { st with stks := rest }) := by
  rw [popF, pushTextbufferF_eq h]
  rfl

theorem failRouteSt_eq {st : Tk} {f : Frame} {rest : List Frame}
    (h : st.stks = f :: rest) :
    failRouteSt st = some { st with stks := rest } := by
  rw [failRouteSt, popF_eq h]
  rfl

theorem writeTokF_eq {st : Tk} {f : Frame} {rest : List Frame}
    (h : st.stks = f :: rest) (t : Token) :
    writeTokF st t =
      some { st with stks := ⟨flushedStack f ++ [t], f.context, []⟩ :: rest } := by
  rw [writeTokF, pushTextbufferF_eq h]
  simp only [mapTop]
  have hc := flushFrame_context f
  have hs : (flushFrame f).stack = flushedStack f := rfl
  have hb : ({ flushFrame f with
      stack := (flushFrame f).stack ++ [t] } : Frame).textbuffer = (flushFrame f).textbuffer := rfl
  rcases hbuf : f.textbuffer with _ | ⟨b, bs⟩
  · simp only [flushFrame, hbuf]
    rcases f with ⟨fs, fc, fb⟩
    simp_all [flushedStack, flushFrame]
  · rcases f with ⟨fs, fc, fb⟩
    simp_all [flushedStack, flushFrame]

/-! ### Effect of `_write_text` on the flushed stack -/

theorem flushedStack_nilbuf (fs : List Token) (fc : Nat) :
    flushedStack ⟨fs, fc, []⟩ = fs := rfl

theorem flushedStack_consbuf (fs : List Token) (fc : Nat) (b : List Char)
    (bs : List (List Char)) :
    flushedStack ⟨fs, fc, b :: bs⟩ = fs ++ [Token.Text ((b :: bs).flatten)] := rfl

theorem wtFrame_render (f : Frame) (s : List Char) (lv : Nat) :
    renderToks (flushedStack (wtFrame f s)) lv =
      renderToks (flushedStack f) lv ++ s := by
  rcases f with ⟨fs, fc, fb⟩
  rcases fb with _ | ⟨b, bs⟩
  · show renderToks (flushedStack ⟨fs, fc, [] ++ [s]⟩) lv = _
    rw [List.nil_append, flushedStack_consbuf, flushedStack_nilbuf,
      renderToks_snoc_text]
    simp
  · show renderToks (flushedStack ⟨fs, fc, (b :: bs) ++ [s]⟩) lv = _
    rw [List.cons_append, flushedStack_consbuf, flushedStack_consbuf,
      renderToks_snoc_text, renderToks_snoc_text]
    simp

theorem wtFrame_natB {f : Frame} (s : List Char)
    (h1 : natB (flushedStack f) = true) (h2 : endsNT f.stack = true) :
    natB (flushedStack (wtFrame f s)) = true := by
  rcases f with ⟨fs, fc, fb⟩
  rcases fb with _ | ⟨b, bs⟩
  · show natB (flushedStack ⟨fs, fc, [] ++ [s]⟩) = true
    rw [List.nil_append, flushedStack_consbuf, natB_snoc_text_iff]
    rw [flushedStack_nilbuf] at h1
    simp_all
  · show natB (flushedStack ⟨fs, fc, (b :: bs) ++ [s]⟩) = true
    rw [List.cons_append, flushedStack_consbuf, natB_snoc_text_iff]
    rw [flushedStack_consbuf, natB_snoc_text_iff] at h1
    exact h1

theorem wtFrame_levOK (f : Frame) (s : List Char) :
    levOKB (flushedStack (wtFrame f s)) = levOKB (flushedStack f) := by
  rcases f with ⟨fs, fc, fb⟩
  rcases fb with _ | ⟨b, bs⟩
  · show levOKB (flushedStack ⟨fs, fc, [] ++ [s]⟩) = _
    rw [List.nil_append, flushedStack_consbuf, flushedStack_nilbuf, levOKB_snoc_text]
  · show levOKB (flushedStack ⟨fs, fc, (b :: bs) ++ [s]⟩) = _
    rw [List.cons_append, flushedStack_consbuf, flushedStack_consbuf,
      levOKB_snoc_text, levOKB_snoc_text]

theorem wtFrame_noHead (f : Frame) (s : List Char) :
    noHeadTB (flushedStack (wtFrame f s)) = noHeadTB (flushedStack f) := by
  rcases f with ⟨fs, fc, fb⟩
  rcases fb with _ | ⟨b, bs⟩
  · show noHeadTB (flushedStack ⟨fs, fc, [] ++ [s]⟩) = _
    rw [List.nil_append, flushedStack_consbuf, flushedStack_nilbuf, noHeadTB_snoc_text]
  · show noHeadTB (flushedStack ⟨fs, fc, (b :: bs) ++ [s]⟩) = _
    rw [List.cons_append, flushedStack_consbuf, flushedStack_consbuf,
      noHeadTB_snoc_text, noHeadTB_snoc_text]

theorem wtFrame_stack (f : Frame) (s : List Char) : (wtFrame f s).stack = f.stack := rfl

theorem wtFrame_context (f : Frame) (s : List Char) : (wtFrame f s).context = f.context := rfl

/-! ### Effect of `_write_all` -/

theorem levelAfter_snoc_text (xs : List Token) (s : List Char) (lv : Nat) :
    levelAfter (xs ++ [Token.Text s]) lv = levelAfter xs lv := by
  rw [levelAfter_append]
  rfl

theorem levelAfter_flushed_wt (f : Frame) (t : List Char) (lv : Nat) :
    levelAfter (flushedStack (wtFrame f t)) lv = levelAfter (flushedStack f) lv := by
  rcases f with ⟨fs, fc, fb⟩
  rcases fb with _ | ⟨b, bs⟩
  · show levelAfter (flushedStack ⟨fs, fc, [] ++ [t]⟩) lv = _
    rw [List.nil_append, flushedStack_consbuf, flushedStack_nilbuf, levelAfter_snoc_text]
  · show levelAfter (flushedStack ⟨fs, fc, (b :: bs) ++ [t]⟩) lv = _
    rw [List.cons_append, flushedStack_consbuf, flushedStack_consbuf,
      levelAfter_snoc_text, levelAfter_snoc_text]

theorem endsNT_flushed_wt (f : Frame) (t : List Char) :
    endsNT (flushedStack (wtFrame f t)) = false := by
  rcases f with ⟨fs, fc, fb⟩
  rcases fb with _ | ⟨b, bs⟩
  · show endsNT (flushedStack ⟨fs, fc, [] ++ [t]⟩) = false
    rw [List.nil_append, flushedStack_consbuf, endsNT_append_singleton]
    rfl
  · show endsNT (flushedStack ⟨fs, fc, (b :: bs) ++ [t]⟩) = false
    rw [List.cons_append, flushedStack_consbuf, endsNT_append_singleton]
    rfl

theorem endsNT_append_ne {xs ys : List Token} (h : ys ≠ []) :
    endsNT (xs ++ ys) = endsNT ys := by
  simp only [endsNT, List.getLast?_append_of_ne_nil xs h]

theorem headNT_of_natB_textcons {t : List Char} {rest' : List Token}
    (h : natB (Token.Text t :: rest') = true) : headNT rest' = true := by
  cases rest' with
  | nil => rfl
  | cons u us =>
    rw [natB_cons_cons, Bool.and_eq_true] at h
    have := h.1
    cases u <;> simp_all [isTextTok, headNT]

theorem writeAllF_eq_text {st : Tk} {f : Frame} {rest : List Frame}
    (h : st.stks = f :: rest) (t : List Char) (rest' : List Token) :
    writeAllF st (Token.Text t :: rest') =
      some { st with
        stks := ⟨flushedStack (wtFrame f t) ++ rest', f.context, []⟩ :: rest } := by
  have h2 : ({ st with stks := wtFrame f t :: rest } : Tk).stks =
      wtFrame f t :: rest := rfl
  simp only [writeAllF, writeTextF_eq h, pushTextbufferF_eq h2, mapTop]
  congr 2
  rcases f with ⟨fs, fc, fb⟩
  rcases fb with _ | ⟨b, bs⟩ <;> rfl

theorem writeAllF_eq_other {st : Tk} {f : Frame} {rest : List Frame}
    (h : st.stks = f :: rest) {ts : List Token} (hts : headNT ts = true) :
    writeAllF st ts =
      some { st with stks := ⟨flushedStack f ++ ts, f.context, []⟩ :: rest } := by
  have key : ∀ st0 : Tk, st0.stks = f :: rest →
      (match pushTextbufferF st0 with
       | none => none
       | some st2 => mapTop st2 (fun fr => { fr with stack := fr.stack ++ ts })) =
      some { st0 with stks := ⟨flushedStack f ++ ts, f.context, []⟩ :: rest } := by
    intro st0 h0
    rw [pushTextbufferF_eq h0]
    simp only [mapTop]
    congr 2
    rcases f with ⟨fs, fc, fb⟩
    rcases fb with _ | ⟨b, bs⟩ <;> rfl
  cases ts with
  | nil => exact key st h
  | cons u us =>
    cases u with
    | Text s => simp [headNT] at hts
    | TemplateOpen => exact key st h
    | TemplateParamSeparator => exact key st h
    | TemplateParamEquals => exact key st h
    | TemplateClose => exact key st h
    | HeadingStart l => exact key st h
    | HeadingEnd => exact key st h
    | HTMLEntityStart => exact key st h
    | HTMLEntityNumeric => exact key st h
    | HTMLEntityHex c => exact key st h
    | HTMLEntityEnd => exact key st h

theorem writeAllSpec {st : Tk} {f : Frame} {rest : List Frame} (ts : List Token)
    (h : st.stks = f :: rest) :
    ∃ f', writeAllF st ts = some { st with stks := f' :: rest } ∧
      f'.context = f.context ∧ f'.textbuffer = [] ∧ f'.stack = flushedStack f' ∧
      (∀ lv, renderToks (flushedStack f') lv = renderToks (flushedStack f ++ ts) lv) ∧
      (natB (flushedStack f) = true → endsNT f.stack = true → natB ts = true →
        natB (flushedStack f') = true) ∧
      (levOKB (flushedStack f') = (levOKB (flushedStack f) && levOKB ts)) ∧
      (noHeadTB (flushedStack f') = (noHeadTB (flushedStack f) && noHeadTB ts)) ∧
      (ts ≠ [] → endsNT (flushedStack f') = endsNT ts) ∧
      (∀ lv, levelAfter (flushedStack f') lv =
        levelAfter (flushedStack f ++ ts) lv) := by
  cases hts : headNT ts with
  | true =>
    refine ⟨⟨flushedStack f ++ ts, f.context, []⟩, writeAllF_eq_other h hts, rfl, rfl,
      (flushedStack_nilbuf _ _).symm, ?_, ?_, ?_, ?_, ?_, ?_⟩
    · intro lv
      rw [flushedStack_nilbuf]
    · intro h1 h2 h3
      rw [flushedStack_nilbuf]
      refine natB_append h1 h3 (Or.inr hts)
    · rw [flushedStack_nilbuf, levOKB_append]
    · rw [flushedStack_nilbuf, noHeadTB_append]
    · intro hne
      rw [flushedStack_nilbuf, endsNT_append_ne hne]
    · intro lv
      rw [flushedStack_nilbuf]
  | false =>
    -- `headNT ts = false` means `ts` begins with a `Text` token
    obtain ⟨t, rest', rfl⟩ : ∃ t rest', ts = Token.Text t :: rest' := by
      cases ts with
      | nil => simp [headNT] at hts
      | cons u us =>
        cases u <;> simp [headNT] at hts
        exact ⟨_, _, rfl⟩
    refine ⟨⟨flushedStack (wtFrame f t) ++ rest', f.context, []⟩,
      writeAllF_eq_text h t rest', rfl, rfl, (flushedStack_nilbuf _ _).symm,
      ?_, ?_, ?_, ?_, ?_, ?_⟩
    · intro lv
      rw [flushedStack_nilbuf, renderToks_append, wtFrame_render, levelAfter_flushed_wt,
        renderToks_append]
      simp [renderToks, levelAfter]
    · intro h1 h2 h3
      rw [flushedStack_nilbuf]
      refine natB_append (wtFrame_natB t h1 h2) (natB_sublist_tail h3)
        (Or.inr (headNT_of_natB_textcons h3))
    · rw [flushedStack_nilbuf, levOKB_append, wtFrame_levOK]
      have : levOKB (Token.Text t :: rest') = levOKB rest' := by simp [levOKB]
      rw [this]
    · rw [flushedStack_nilbuf, noHeadTB_append, wtFrame_noHead]
      have : noHeadTB (Token.Text t :: rest') = noHeadTB rest' := by simp [noHeadTB]
      rw [this]
    · intro _
      rw [flushedStack_nilbuf]
      cases hr : rest' with
      | nil =>
        rw [List.append_nil, endsNT_flushed_wt]
        simp [endsNT, List.getLast?]
      | cons u us =>
        rw [endsNT_append_ne (by simp)]
        have : endsNT (Token.Text t :: u :: us) = endsNT (u :: us) := by
          simp [endsNT, List.getLast?_cons_cons]
        rw [this]
    · intro lv
      rw [flushedStack_nilbuf, levelAfter_append, levelAfter_flushed_wt,
        levelAfter_append]
      simp [levelAfter]

/-! ### Effects of the template helpers -/

theorem setContext_eq {st : Tk} {f : Frame} {rest : List Frame}
    (h : st.stks = f :: rest) (c : Nat) :
    setContext st c = some { st with stks := { f with context := c } :: rest } := by
  simp [setContext, mapTop, h]

theorem flushFrame_buf_nil (f : Frame) : (flushFrame f).textbuffer = [] := by
  rcases f with ⟨fs, fc, fb⟩
  rcases fb with _ | ⟨b, bs⟩ <;> rfl

theorem flushedStack_buf_nil {f : Frame} (h : f.textbuffer = []) :
    flushedStack f = f.stack := by
  rcases f with ⟨fs, fc, fb⟩
  simp only at h
  subst h
  rfl

theorem verifySpec {st : Tk} {f : Frame} {rest : List Frame}
    (h : st.stks = f :: rest) :
    verifyTemplateName st =
      some (if badName (flushedStack f) = true then Res.bad { st with stks := rest }
            else Res.ok () { st with stks := flushFrame f :: rest }) := by
  have h2 : ({ st with stks := flushFrame f :: rest } : Tk).stks =
      flushFrame f :: rest := rfl
  have hs : (flushFrame f).stack = flushedStack f := rfl
  simp only [verifyTemplateName, pushTextbufferF_eq h]
  by_cases hne : flushedStack f = []
  · rw [if_neg (by simp [hs, hne])]
    rw [if_neg (by simp [badName, hne])]
  · rw [if_pos (by simp [hs, hne])]
    by_cases hcond : trimWs (joinBuf (textsOf (flushFrame f).stack)) ≠ [] ∧
        '\n' ∈ trimWs (joinBuf (textsOf (flushFrame f).stack))
    · rw [if_pos hcond]
      have h3 : failRouteSt { st with stks := flushFrame f :: rest } =
          some { st with stks := rest } := by
        rw [failRouteSt_eq h2]
      rw [h3]
      rw [if_pos ?side]
      case side =>
        rw [hs] at hcond
        simp [badName, hne, hcond.1, hcond.2]
    · rw [if_neg hcond]
      rw [if_neg ?side]
      case side =>
        rw [hs] at hcond
        intro hbad
        simp only [badName, Bool.and_eq_true, decide_eq_true_eq, ne_eq] at hbad
        exact hcond ⟨hbad.2.1, hbad.2.2⟩

theorem handleTemplateParamSpec {st : Tk} {f : Frame} {rest : List Frame}
    (h : st.stks = f :: rest) (hc : f.context = 1 ∨ f.context = 2 ∨ f.context = 4) :
    (f.context = 1 ∧ badName (flushedStack f) = true ∧
      handleTemplateParam st = some (Res.bad { st with stks := rest })) ∨
    (handleTemplateParam st = some (Res.ok ()
      { st with stks :=
          ⟨flushedStack f ++ [Token.TemplateParamSeparator], 2, []⟩ :: rest })) := by
  obtain ⟨tx, hd, sks, gl⟩ := st
  obtain ⟨fs, fc, fb⟩ := f
  simp only at h hc
  subst h
  rcases hc with hc | hc | hc <;> subst hc
  · -- TEMPLATE_NAME phase: verify, clear the bit, set KEY, write the separator
    rcases fb with _ | ⟨b, bs⟩
    · by_cases hbad : badName (flushedStack ⟨fs, 1, []⟩) = true
      · left
        refine ⟨rfl, hbad, ?_⟩
        have hv := @verifySpec ⟨tx, hd, ⟨fs, 1, []⟩ :: rest, gl⟩ ⟨fs, 1, []⟩ rest rfl
        rw [if_pos hbad] at hv
        simp only [handleTemplateParam]
        rw [hv]
        simp [topContext, setContext, mapTop, writeTokF, pushTextbufferF,
          flushFrame, flushedStack, TEMPLATE_NAME, TEMPLATE_PARAM_KEY,
          TEMPLATE_PARAM_VALUE, joinBuf]
      · right
        have hv := @verifySpec ⟨tx, hd, ⟨fs, 1, []⟩ :: rest, gl⟩ ⟨fs, 1, []⟩ rest rfl
        rw [if_neg hbad] at hv
        simp only [handleTemplateParam]
        rw [hv]
        simp [topContext, setContext, mapTop, writeTokF, pushTextbufferF,
          flushFrame, flushedStack, TEMPLATE_NAME, TEMPLATE_PARAM_KEY,
          TEMPLATE_PARAM_VALUE, joinBuf]
    · by_cases hbad : badName (flushedStack ⟨fs, 1, b :: bs⟩) = true
      · left
        refine ⟨rfl, hbad, ?_⟩
        have hv := @verifySpec ⟨tx, hd, ⟨fs, 1, b :: bs⟩ :: rest, gl⟩ ⟨fs, 1, b :: bs⟩ rest rfl
        rw [if_pos hbad] at hv
        simp only [handleTemplateParam]
        rw [hv]
        simp [topContext, setContext, mapTop, writeTokF, pushTextbufferF,
          flushFrame, flushedStack, TEMPLATE_NAME, TEMPLATE_PARAM_KEY,
          TEMPLATE_PARAM_VALUE, joinBuf]
      · right
        have hv := @verifySpec ⟨tx, hd, ⟨fs, 1, b :: bs⟩ :: rest, gl⟩ ⟨fs, 1, b :: bs⟩ rest rfl
        rw [if_neg hbad] at hv
        simp only [handleTemplateParam]
        rw [hv]
        simp [topContext, setContext, mapTop, writeTokF, pushTextbufferF,
          flushFrame, flushedStack, TEMPLATE_NAME, TEMPLATE_PARAM_KEY,
          TEMPLATE_PARAM_VALUE, joinBuf]
  · right
    rcases fb with _ | ⟨b, bs⟩ <;>
      simp [handleTemplateParam, topContext, setContext, mapTop, writeTokF,
        pushTextbufferF, flushFrame, flushedStack, TEMPLATE_NAME,
        TEMPLATE_PARAM_KEY, TEMPLATE_PARAM_VALUE, joinBuf,
        show (2:Nat) &&& 1 = 0 from by decide, show (2:Nat) &&& 4 = 0 from by decide,
        show (2:Nat) ||| 2 = 2 from by decide]
  · right
    rcases fb with _ | ⟨b, bs⟩ <;>
      simp [handleTemplateParam, topContext, setContext, mapTop, writeTokF,
        pushTextbufferF, flushFrame, flushedStack, TEMPLATE_NAME,
        TEMPLATE_PARAM_KEY, TEMPLATE_PARAM_VALUE, joinBuf,
        show (4:Nat) &&& 1 = 0 from by decide, show (4:Nat) &&& 4 = 4 from by decide,
        show (4:Nat) ^^^ 4 = 0 from by decide]

theorem handleTemplateParamValueSpec {st : Tk} {f : Frame} {rest : List Frame}
    (h : st.stks = f :: rest) (hc : f.context = 2) :
    handleTemplateParamValue st = some
      { st with stks :=
          ⟨flushedStack f ++ [Token.TemplateParamEquals], 4, []⟩ :: rest } := by
  obtain ⟨tx, hd, sks, gl⟩ := st
  obtain ⟨fs, fc, fb⟩ := f
  simp only at h hc
  subst h
  subst hc
  rcases fb with _ | ⟨b, bs⟩ <;>
    simp [handleTemplateParamValue, topContext, setContext, mapTop, writeTokF,
      pushTextbufferF, flushFrame, flushedStack, TEMPLATE_PARAM_KEY,
      TEMPLATE_PARAM_VALUE, joinBuf, show (2:Nat) ^^^ 2 = 0 from by decide]

theorem handleTemplateEndSpec {st : Tk} {f : Frame} {rest : List Frame}
    (h : st.stks = f :: rest)
    (hc : f.context = 1 ∨ f.context = 2 ∨ f.context = 4) :
    (f.context = 1 ∧ badName (flushedStack f) = true ∧
      handleTemplateEnd st = some (Res.bad { st with stks := rest })) ∨
    (handleTemplateEnd st = some (Res.ok (ParseVal.plain (flushedStack f))
      { st with head := st.head + 1, stks := rest })) := by
  obtain ⟨tx, hd, sks, gl⟩ := st
  obtain ⟨fs, fc, fb⟩ := f
  simp only at h hc
  subst h
  rcases hc with hc | hc | hc <;> subst hc
  · by_cases hbad : badName (flushedStack ⟨fs, 1, fb⟩) = true
    · left
      refine ⟨rfl, hbad, ?_⟩
      have hv := @verifySpec ⟨tx, hd, ⟨fs, 1, fb⟩ :: rest, gl⟩ ⟨fs, 1, fb⟩ rest rfl
      rw [if_pos hbad] at hv
      simp only [handleTemplateEnd]
      rw [hv]
      rcases fb with _ | ⟨b, bs⟩ <;>
        simp [topContext, popF, pushTextbufferF, mapTop, flushFrame, flushedStack,
          TEMPLATE_NAME, joinBuf]
    · right
      have hv := @verifySpec ⟨tx, hd, ⟨fs, 1, fb⟩ :: rest, gl⟩ ⟨fs, 1, fb⟩ rest rfl
      rw [if_neg hbad] at hv
      simp only [handleTemplateEnd]
      rw [hv]
      rcases fb with _ | ⟨b, bs⟩ <;>
        simp [topContext, popF, pushTextbufferF, mapTop, flushFrame, flushedStack,
          TEMPLATE_NAME, joinBuf]
  · right
    rcases fb with _ | ⟨b, bs⟩ <;>
      simp [handleTemplateEnd, topContext, popF, pushTextbufferF, mapTop,
        flushFrame, flushedStack, TEMPLATE_NAME, joinBuf,
        show (2:Nat) &&& 1 = 0 from by decide]
  · right
    rcases fb with _ | ⟨b, bs⟩ <;>
      simp [handleTemplateEnd, topContext, popF, pushTextbufferF, mapTop,
        flushFrame, flushedStack, TEMPLATE_NAME, joinBuf,
        show (4:Nat) &&& 1 = 0 from by decide]

theorem countEqSegs_le (l : List (List Char)) : countEqSegs l ≤ l.length := by
  induction l with
  | nil => simp [countEqSegs]
  | cons s rest ih =>
    rw [countEqSegs]
    by_cases hs : s = ['='] <;> simp [hs] <;> omega

theorem countEq_flatten (l : List (List Char)) :
    (l.take (countEqSegs l)).flatten = List.replicate (countEqSegs l) '=' := by
  induction l with
  | nil => simp [countEqSegs]
  | cons s rest ih =>
    rw [countEqSegs]
    by_cases hs : s = ['=']
    · rw [if_pos hs, List.take_succ_cons, List.flatten_cons, ih, hs]
      rfl
    · rw [if_neg hs]
      simp

theorem eqRun_slice {text : List (List Char)} {h : Nat}
    (hs : text.getD h [] = ['=']) :
    joinSlice text h (1 + countEqSegs (text.drop (h + 1))) =
      List.replicate (1 + countEqSegs (text.drop (h + 1))) '=' := by
  rw [joinSlice_add text h 1 (countEqSegs (text.drop (h + 1))), joinSlice_one, hs]
  rw [show joinSlice text (h + 1) (countEqSegs (text.drop (h + 1))) =
    ((text.drop (h + 1)).take (countEqSegs (text.drop (h + 1)))).flatten from rfl]
  rw [countEq_flatten, Nat.add_comm 1 (countEqSegs (text.drop (h + 1))),
    List.replicate_succ]
  rfl

theorem heading_ctx_facts (k : Nat) (hk : k ≤ 5) :
    (HEADING_LEVEL_1 <<< k) ∈ ctxVals ∧
    intLog2 ((HEADING_LEVEL_1 <<< k) / HEADING_LEVEL_1) + 1 = k + 1 ∧
    (HEADING_LEVEL_1 <<< k) &&& HEADING ≠ 0 ∧
    (HEADING_LEVEL_1 <<< k) &&& TEMPLATE = 0 := by
  have hdiv : (HEADING_LEVEL_1 <<< k) / HEADING_LEVEL_1 = 2 ^ k := by
    rw [HEADING_LEVEL_1, Nat.shiftLeft_eq]
    omega
  refine ⟨?_, ?_, ?_, ?_⟩
  · interval_cases k <;> decide
  · rw [hdiv]
    interval_cases k <;> decide
  · interval_cases k <;> decide
  · interval_cases k <;> decide

/-! ### The entity parser, characterized -/

theorem getD_some {tx : List (List Char)} {h : Nat} {s : List Char}
    (hne : s ≠ []) (hget : tx.getD h [] = s) : tx[h]? = some s := by
  rw [List.getD_eq_getElem?_getD] at hget
  rcases hx : tx[h]? with _ | u
  · rw [hx] at hget
    simp at hget
    first
    | exact absurd hget hne
    | exact absurd hget.symm hne
  · rw [hx] at hget
    simp at hget
    rw [hget]

theorem entityTailSpec (gstack : List Token) (cur : List Char)
    (numeric hexadecimal : Bool) (tx : List (List Char)) (hd0 gl : Nat)
    (f : Frame) (rest : List Frame) :
    (∃ stb : Tk,
      reallyParseEntity.entityTail ⟨tx, hd0, ⟨gstack, 0, []⟩ :: f :: rest, gl⟩
          cur numeric hexadecimal = some (Res.bad stb) ∧
      stb.text = tx ∧ stb.glob = gl ∧ stb.stks = f :: rest) ∨
    (reallyParseEntity.entityTail ⟨tx, hd0, ⟨gstack, 0, []⟩ :: f :: rest, gl⟩
        cur numeric hexadecimal =
      some (Res.ok () ⟨tx, hd0 + 1,
        ⟨gstack ++ [Token.Text cur, Token.HTMLEntityEnd], 0, []⟩ :: f :: rest, gl⟩) ∧
      tx.getD (hd0 + 1) [] = [';']) := by
  by_cases hval : (cur.all (if hexadecimal = true then isHexDigitC
      else if numeric = true then Char.isDigit else isAlnumC)) = true
  case neg =>
    left
    refine ⟨⟨tx, hd0, f :: rest, gl⟩, ?_, rfl, rfl, rfl⟩
    simp only [reallyParseEntity.entityTail]
    rw [if_pos hval, failRouteSt_eq rfl]
  case pos =>
    by_cases hsc : readVal ⟨tx, hd0 + 1, ⟨gstack, 0, []⟩ :: f :: rest, gl⟩ 0 false =
        ReadVal.seg [';']
    case neg =>
      left
      refine ⟨⟨tx, hd0 + 1, f :: rest, gl⟩, ?_, rfl, rfl, rfl⟩
      simp only [reallyParseEntity.entityTail]
      rw [if_neg (not_not_intro hval), if_pos hsc, failRouteSt_eq rfl]
    case pos =>
      have hsemi : tx.getD (hd0 + 1) [] = [';'] := by
        have hx := @readVal_zero_seg ⟨tx, hd0 + 1, ⟨gstack, 0, []⟩ :: f :: rest, gl⟩
          [';'] hsc
        rw [List.getD_eq_getElem?_getD]
        simp only at hx
        rw [hx]
        rfl
      by_cases hnum : numeric = true
      · by_cases hrange : ((if hexadecimal = true then hexVal cur else decVal cur) < 1 ∨
            (if hexadecimal = true then hexVal cur else decVal cur) > 0x10FFFF)
        · left
          refine ⟨⟨tx, hd0 + 1, f :: rest, gl⟩, ?_, rfl, rfl, rfl⟩
          simp only [reallyParseEntity.entityTail]
          rw [if_neg (not_not_intro hval), if_neg (not_not_intro hsc), if_pos hnum,
            if_pos hrange, failRouteSt_eq rfl]
        · right
          refine ⟨?_, hsemi⟩
          simp only [reallyParseEntity.entityTail]
          rw [if_neg (not_not_intro hval), if_neg (not_not_intro hsc), if_pos hnum,
            if_neg hrange]
          simp [writeTokF, pushTextbufferF, mapTop, flushFrame, flushedStack]
      · by_cases hmem : cur ∈ entityNames
        · right
          refine ⟨?_, hsemi⟩
          simp only [reallyParseEntity.entityTail]
          rw [if_neg (not_not_intro hval), if_neg (not_not_intro hsc), if_neg hnum,
            if_neg (not_not_intro hmem)]
          simp [writeTokF, pushTextbufferF, mapTop, flushFrame, flushedStack]
        · left
          refine ⟨⟨tx, hd0 + 1, f :: rest, gl⟩, ?_, rfl, rfl, rfl⟩
          simp only [reallyParseEntity.entityTail]
          rw [if_neg (not_not_intro hval), if_neg (not_not_intro hsc), if_neg hnum,
            if_pos hmem, failRouteSt_eq rfl]

theorem reallyParseEntitySpec (tx : List (List Char)) (hd gl : Nat) (f : Frame)
    (rest : List Frame) (hseg : ∀ s ∈ tx, s ≠ []) :
    (∃ stb : Tk, reallyParseEntity ⟨tx, hd, ⟨[], 0, []⟩ :: f :: rest, gl⟩ =
        some (Res.bad stb) ∧ stb.text = tx ∧ stb.glob = gl ∧ stb.stks = f :: rest) ∨
    (∃ (ets : List Token) (hd' : Nat),
      reallyParseEntity ⟨tx, hd, ⟨[], 0, []⟩ :: f :: rest, gl⟩ =
        some (Res.ok () ⟨tx, hd', ⟨ets, 0, []⟩ :: f :: rest, gl⟩) ∧
      hd + 1 ≤ hd' ∧
      (∀ lv, renderToks ets lv = '&' :: joinSlice tx (hd + 1) (hd' - hd)) ∧
      natB ets = true ∧ endsNT ets = true ∧ levOKB ets = true ∧
      noHeadTB ets = true) := by
  have hw1 := @writeTokF_eq ⟨tx, hd, ⟨[], 0, []⟩ :: f :: rest, gl⟩ ⟨[], 0, []⟩
    (f :: rest) rfl Token.HTMLEntityStart
  rcases hx1 : tx[hd + 1]? with _ | s2
  · -- strict read hits the end of input: the route fails
    left
    refine ⟨⟨tx, hd + 1, f :: rest, gl⟩, ?_, rfl, rfl, rfl⟩
    simp only [reallyParseEntity, hw1]
    simp only [flushedStack_nilbuf, List.nil_append]
    rw [show (readF ⟨tx, hd + 1,
        (⟨[Token.HTMLEntityStart], 0, []⟩ : Frame) :: f :: rest, gl⟩ 0 false true) =
        some (Res.bad ⟨tx, hd + 1, f :: rest, gl⟩) from by
      rw [readF, show readVal ⟨tx, hd + 1,
        (⟨[Token.HTMLEntityStart], 0, []⟩ : Frame) :: f :: rest, gl⟩ 0 false =
        ReadVal.END from by rw [readVal_zero]; simp [hx1]]
      simp [failRouteSt, popF, pushTextbufferF, mapTop, flushFrame]]
  · have hs2mem : s2 ∈ tx := List.getElem?_mem hx1
    have hs2ne : s2 ≠ [] := hseg s2 hs2mem
    have hrv1 : readVal ⟨tx, hd + 1,
        (⟨[Token.HTMLEntityStart], 0, []⟩ : Frame) :: f :: rest, gl⟩ 0 false =
        ReadVal.seg s2 := by
      rw [readVal_zero]
      simp [hx1]
    by_cases h2hash : s2 = ['#']
    · -- numeric entity
      subst h2hash
      have hw2 := @writeTokF_eq ⟨tx, hd + 1,
          (⟨[Token.HTMLEntityStart], 0, []⟩ : Frame) :: f :: rest, gl⟩
          ⟨[Token.HTMLEntityStart], 0, []⟩ (f :: rest) rfl Token.HTMLEntityNumeric
      rcases hx2 : tx[hd + 2]? with _ | s3
      · -- strict read hits the end of input after `#`
        left
        refine ⟨⟨tx, hd + 2, f :: rest, gl⟩, ?_, rfl, rfl, rfl⟩
        simp only [reallyParseEntity, hw1]
        simp only [flushedStack_nilbuf, List.nil_append]
        rw [show (readF ⟨tx, hd + 1,
            (⟨[Token.HTMLEntityStart], 0, []⟩ : Frame) :: f :: rest, gl⟩ 0 false true) =
            some (Res.ok (ReadVal.seg ['#']) ⟨tx, hd + 1,
              (⟨[Token.HTMLEntityStart], 0, []⟩ : Frame) :: f :: rest, gl⟩) from by
          simp [readF, hrv1]]
        simp only [hw2, flushedStack_nilbuf, List.nil_append]
        simp only [List.singleton_append, show hd + 1 + 1 = hd + 2 from rfl, if_true]
        rw [show (readF ⟨tx, hd + 2,
            (⟨[Token.HTMLEntityStart, Token.HTMLEntityNumeric], 0, []⟩ : Frame) ::
              f :: rest, gl⟩ 0 false true) =
            some (Res.bad ⟨tx, hd + 2, f :: rest, gl⟩) from by
          rw [readF, show readVal ⟨tx, hd + 2,
            (⟨[Token.HTMLEntityStart, Token.HTMLEntityNumeric], 0, []⟩ : Frame) ::
              f :: rest, gl⟩ 0 false = ReadVal.END from by rw [readVal_zero]; simp [hx2]]
          simp [failRouteSt, popF, pushTextbufferF, mapTop, flushFrame]]
      · have hs3mem : s3 ∈ tx := List.getElem?_mem hx2
        have hs3ne : s3 ≠ [] := hseg s3 hs3mem
        obtain ⟨c0, ctail, rfl⟩ : ∃ c0 ctail, s3 = c0 :: ctail := by
          rcases s3 with _ | ⟨c0, ctail⟩
          · exact absurd rfl hs3ne
          · exact ⟨c0, ctail, rfl⟩
        have hrv2 : readVal ⟨tx, hd + 2,
            (⟨[Token.HTMLEntityStart, Token.HTMLEntityNumeric], 0, []⟩ : Frame) ::
              f :: rest, gl⟩ 0 false = ReadVal.seg (c0 :: ctail) := by
          rw [readVal_zero]
          simp [hx2]
        have hmain : reallyParseEntity ⟨tx, hd, ⟨[], 0, []⟩ :: f :: rest, gl⟩ =
            (if c0.toLower = 'x' then
              (if ctail = [] then
                some (Res.bad ⟨tx, hd + 2, f :: rest, gl⟩)
              else
                reallyParseEntity.entityTail ⟨tx, hd + 2,
                  (⟨[Token.HTMLEntityStart, Token.HTMLEntityNumeric,
                     Token.HTMLEntityHex c0], 0, []⟩ : Frame) :: f :: rest, gl⟩
                  ctail true true)
            else
              reallyParseEntity.entityTail ⟨tx, hd + 2,
                (⟨[Token.HTMLEntityStart, Token.HTMLEntityNumeric], 0, []⟩ : Frame) ::
                  f :: rest, gl⟩ (c0 :: ctail) true false) := by
          simp only [reallyParseEntity, hw1]
          simp only [flushedStack_nilbuf, List.nil_append]
          rw [show (readF ⟨tx, hd + 1,
              (⟨[Token.HTMLEntityStart], 0, []⟩ : Frame) :: f :: rest, gl⟩ 0 false true) =
              some (Res.ok (ReadVal.seg ['#']) ⟨tx, hd + 1,
                (⟨[Token.HTMLEntityStart], 0, []⟩ : Frame) :: f :: rest, gl⟩) from by
            simp [readF, hrv1]]
          simp only [hw2, flushedStack_nilbuf, List.nil_append]
          simp only [List.singleton_append, show hd + 1 + 1 = hd + 2 from rfl, if_true]
          rw [show (readF ⟨tx, hd + 2,
              (⟨[Token.HTMLEntityStart, Token.HTMLEntityNumeric], 0, []⟩ : Frame) ::
                f :: rest, gl⟩ 0 false true) =
              some (Res.ok (ReadVal.seg (c0 :: ctail)) ⟨tx, hd + 2,
                (⟨[Token.HTMLEntityStart, Token.HTMLEntityNumeric], 0, []⟩ : Frame) ::
                  f :: rest, gl⟩) from by simp [readF, hrv2]]
          by_cases hx : c0.toLower = 'x'
          · simp only [if_pos hx]
            by_cases htail : ctail = []
            · simp only [if_pos htail]
              simp [writeTokF, pushTextbufferF, mapTop, flushFrame, failRouteSt,
                popF, htail]
            · simp only [if_neg htail]
              simp [writeTokF, pushTextbufferF, mapTop, flushFrame, htail]
          · simp only [if_neg hx]
        by_cases hx : c0.toLower = 'x'
        · rw [if_pos hx] at hmain
          by_cases htail : ctail = []
          · rw [if_pos htail] at hmain
            left
            exact ⟨⟨tx, hd + 2, f :: rest, gl⟩, hmain, rfl, rfl, rfl⟩
          · rw [if_neg htail] at hmain
            rcases entityTailSpec [Token.HTMLEntityStart, Token.HTMLEntityNumeric,
                Token.HTMLEntityHex c0] ctail true true tx (hd + 2) gl f rest with
              ⟨stb, heq, hb1, hb2, hb3⟩ | ⟨heq, hsemi⟩
            · left
              exact ⟨stb, hmain.trans heq, hb1, hb2, hb3⟩
            · right
              have hg1 : tx.getD (hd + 1) [] = ['#'] := by
                rw [List.getD_eq_getElem?_getD, hx1]
                rfl
              have hg2 : tx.getD (hd + 2) [] = c0 :: ctail := by
                rw [List.getD_eq_getElem?_getD, hx2]
                rfl
              have hsl : joinSlice tx (hd + 1) 3 =
                  '#' :: ((c0 :: ctail) ++ [';']) := by
                rw [show (3 : Nat) = 1 + (1 + 1) from rfl, joinSlice_add,
                  joinSlice_add, joinSlice_one, joinSlice_one, joinSlice_one]
                rw [hg1, show hd + 1 + 1 = hd + 2 from rfl, hg2,
                  show hd + 2 + 1 = hd + 3 from rfl, hsemi]
                simp
              refine ⟨_, hd + 3, hmain.trans heq, by omega, ?_, rfl, rfl, rfl, rfl⟩
              intro lv
              rw [show hd + 3 - hd = 3 from by omega, hsl]
              simp [renderToks]
        · -- decimal digits after `#`
          rw [if_neg hx] at hmain
          rcases entityTailSpec [Token.HTMLEntityStart, Token.HTMLEntityNumeric]
              (c0 :: ctail) true false tx (hd + 2) gl f rest with
            ⟨stb, heq, hb1, hb2, hb3⟩ | ⟨heq, hsemi⟩
          · left
            exact ⟨stb, hmain.trans heq, hb1, hb2, hb3⟩
          · right
            have hg1 : tx.getD (hd + 1) [] = ['#'] := by
              rw [List.getD_eq_getElem?_getD, hx1]
              rfl
            have hg2 : tx.getD (hd + 2) [] = c0 :: ctail := by
              rw [List.getD_eq_getElem?_getD, hx2]
              rfl
            have hsl : joinSlice tx (hd + 1) 3 =
                '#' :: ((c0 :: ctail) ++ [';']) := by
              rw [show (3 : Nat) = 1 + (1 + 1) from rfl, joinSlice_add,
                joinSlice_add, joinSlice_one, joinSlice_one, joinSlice_one]
              rw [hg1, show hd + 1 + 1 = hd + 2 from rfl, hg2,
                show hd + 2 + 1 = hd + 3 from rfl, hsemi]
              simp
            refine ⟨_, hd + 3, hmain.trans heq, by omega, ?_, rfl, rfl, rfl, rfl⟩
            intro lv
            rw [show hd + 3 - hd = 3 from by omega, hsl]
            simp [renderToks]
    · -- a named entity: `this` is the segment after `&`
      have hmain : reallyParseEntity ⟨tx, hd, ⟨[], 0, []⟩ :: f :: rest, gl⟩ =
          reallyParseEntity.entityTail ⟨tx, hd + 1,
            (⟨[Token.HTMLEntityStart], 0, []⟩ : Frame) :: f :: rest, gl⟩
            s2 false false := by
        simp only [reallyParseEntity, hw1]
        simp only [flushedStack_nilbuf, List.nil_append]
        rw [show (readF ⟨tx, hd + 1,
            (⟨[Token.HTMLEntityStart], 0, []⟩ : Frame) :: f :: rest, gl⟩ 0 false true) =
            some (Res.ok (ReadVal.seg s2) ⟨tx, hd + 1,
              (⟨[Token.HTMLEntityStart], 0, []⟩ : Frame) :: f :: rest, gl⟩) from by
          simp [readF, hrv1]]
        simp only [flushedStack_nilbuf, List.nil_append]
        rw [if_neg h2hash]
      rcases entityTailSpec [Token.HTMLEntityStart] s2 false false tx (hd + 1) gl
          f rest with ⟨stb, heq, hb1, hb2, hb3⟩ | ⟨heq, hsemi⟩
      · left
        exact ⟨stb, hmain.trans heq, hb1, hb2, hb3⟩
      · right
        have hg1 : tx.getD (hd + 1) [] = s2 := by
          rw [List.getD_eq_getElem?_getD, hx1]
          rfl
        have hsl : joinSlice tx (hd + 1) 2 = s2 ++ [';'] := by
          rw [show (2 : Nat) = 1 + 1 from rfl, joinSlice_add,
            joinSlice_one, joinSlice_one]
          rw [hg1, show hd + 1 + 1 = hd + 2 from rfl, hsemi]
        refine ⟨_, hd + 2, hmain.trans heq, by omega, ?_, rfl, rfl, rfl, rfl⟩
        intro lv
        rw [show hd + 2 - hd = 2 from by omega, hsl]
        simp [renderToks]

theorem parseEntitySpec {st : Tk} {f : Frame} {rest : List Frame}
    (h : st.stks = f :: rest)
    (hseg : ∀ s ∈ st.text, s ≠ [])
    (hcur : st.text.getD st.head [] = ['&']) :
    ∃ st' f', parseEntity st = some st' ∧
      st'.text = st.text ∧ st'.glob = st.glob ∧ st'.stks = f' :: rest ∧
      f'.context = f.context ∧ st.head ≤ st'.head ∧
      (∀ lv, renderToks (flushedStack f') lv =
        renderToks (flushedStack f) lv ++
          joinSlice st.text st.head (st'.head + 1 - st.head)) ∧
      (natB (flushedStack f) = true → endsNT f.stack = true →
        natB (flushedStack f') = true) ∧
      (endsNT f.stack = true → endsNT f'.stack = true) ∧
      (levOKB (flushedStack f') = levOKB (flushedStack f)) ∧
      (noHeadTB (flushedStack f') = noHeadTB (flushedStack f)) := by
  obtain ⟨tx, hd, sks, gl⟩ := st
  simp only at h hseg hcur
  subst h
  rcases reallyParseEntitySpec tx hd gl f rest hseg with
    ⟨stb, heq, hb1, hb2, hb3⟩ | ⟨ets, hd', heq, hlt, hrender, hnat, hends, hlev, hnoh⟩
  · -- bad route: `head = reset; write_text(read())`
    obtain ⟨bh, hbh⟩ : ∃ bh, stb = ⟨tx, bh, f :: rest, gl⟩ := by
      refine ⟨stb.head, ?_⟩
      obtain ⟨a1, a2, a3, a4⟩ := stb
      simp_all
    rw [hbh] at heq
    have hget : tx[hd]? = some ['&'] := getD_some (by simp) hcur
    refine ⟨⟨tx, hd, wtFrame f ['&'] :: rest, gl⟩, wtFrame f ['&'], ?_, rfl, rfl, rfl,
      rfl, Nat.le_refl hd, ?_, ?_, ?_, ?_, ?_⟩
    · simp only [parseEntity, push]
      rw [heq]
      simp [writeTextF, mapTop, wtFrame, readVal_zero, hget]
    · intro lv
      rw [wtFrame_render, show hd + 1 - hd = 1 from by omega, joinSlice_one, hcur]
    · intro h1 h2
      exact wtFrame_natB _ h1 h2
    · intro h1
      rw [wtFrame_stack]
      exact h1
    · exact wtFrame_levOK f _
    · exact wtFrame_noHead f _
  · -- success: merge the entity frame into the parent via `write_all`
    have hets_ne : ets ≠ [] := by
      intro hnil
      subst hnil
      have := hrender 0
      simp [renderToks] at this
    rcases @writeAllSpec ⟨tx, hd', f :: rest, gl⟩ f rest ets rfl with
      ⟨f', hweq, hfc, hfb, hfs, hwrender, hwnat, hwlev, hwnoh, hwends, hwlevA⟩
    refine ⟨⟨tx, hd', f' :: rest, gl⟩, f', ?_, rfl, rfl, rfl, hfc,
      (show hd ≤ hd' by omega), ?_, ?_, ?_, ?_, ?_⟩
    · simp only [parseEntity, push]
      rw [heq]
      simp [popF, pushTextbufferF, mapTop, flushFrame, hweq]
    · intro lv
      rw [hwrender lv, renderToks_append, hrender]
      rw [show hd' + 1 - hd = 1 + (hd' - hd) from by omega, joinSlice_add,
        joinSlice_one, hcur]
      simp
    · intro h1 h2
      exact hwnat h1 h2 hnat
    · intro _
      rw [hfs, hwends hets_ne]
      exact hends
    · rw [hwlev, hlev]
      simp
    · rw [hwnoh, hnoh]
      simp

/-! ## The main induction: invariants of the parse loop

`LoopPre` is the invariant holding at the top of every `_parse` loop
iteration: the top frame `f` is the loop's own frame, `a` marks the segment
index at which the frame's coverage begins, and the frame's flushed stack
renders exactly to the input segments `a .. head-1`. -/

def LoopPre (st : Tk) (f : Frame) (rest : List Frame) (a : Nat) : Prop :=
  st.stks = f :: rest ∧
  (∀ s ∈ st.text, s ≠ []) ∧
  st.glob ≤ 1 ∧
  f.context ∈ ctxVals ∧
  (f.context &&& HEADING ≠ 0 → st.glob = 1) ∧
  natB (flushedStack f) = true ∧
  endsNT f.stack = true ∧
  levOKB (flushedStack f) = true ∧
  (st.glob = 1 → noHeadTB (flushedStack f) = true) ∧
  a ≤ st.head ∧
  (∀ lv, renderToks (flushedStack f) lv = joinSlice st.text a (st.head - a))

/-- What holds of a successful `_parse` return, relative to the entry data:
text `t0`, global `g0`, entry head `h0`, the frame's context `c0`, the
underlying frames `rest` and the coverage start `a`. -/
def OkPost (t0 : List (List Char)) (g0 h0 c0 : Nat) (rest : List Frame)
    (a : Nat) : ParseVal → Tk → Prop
  | ParseVal.plain toks, st' =>
      st'.text = t0 ∧ st'.glob = g0 ∧ st'.stks = rest ∧ h0 ≤ st'.head ∧
      c0 &&& HEADING = 0 ∧ natB toks = true ∧ levOKB toks = true ∧
      (g0 = 1 → noHeadTB toks = true) ∧
      ((c0 &&& TEMPLATE = 0 ∧ t0.length ≤ st'.head ∧
          (∀ lv, renderToks toks lv = (t0.drop a).flatten)) ∨
       (c0 &&& TEMPLATE ≠ 0 ∧
          (∀ lv, renderToks toks lv ++ ['}', '}'] =
            joinSlice t0 a (st'.head + 1 - a))))
  | ParseVal.heading toks level, st' =>
      st'.text = t0 ∧ st'.glob = g0 ∧ st'.stks = rest ∧ h0 ≤ st'.head ∧
      c0 &&& HEADING ≠ 0 ∧ natB toks = true ∧ levOKB toks = true ∧
      noHeadTB toks = true ∧ 1 ≤ level ∧
      level ≤ intLog2 (c0 / HEADING_LEVEL_1) + 1 ∧
      (∀ lv, renderToks toks lv ++ List.replicate level '=' =
        joinSlice t0 a (st'.head + 1 - a))

/-- What holds of a raised `BadRoute` leaving a `_parse` call. -/
def BadPost (t0 : List (List Char)) (g0 c0 : Nat) (rest : List Frame)
    (st' : Tk) : Prop :=
  st'.text = t0 ∧ st'.glob = g0 ∧ st'.stks = rest ∧
  c0 &&& (TEMPLATE ||| HEADING) ≠ 0

/-- The combined conclusion of one `parseLoopF` run. -/
def LoopConc (fuel : Nat) (st : Tk) (f : Frame) (rest : List Frame)
    (a : Nat) : Prop :=
  ∃ r, parseLoopF fuel st = some r ∧
    (match r with
     | Res.ok v st' => OkPost st.text st.glob st.head f.context rest a v st'
     | Res.bad st' => BadPost st.text st.glob f.context rest st')

theorem OkPost_mono_head {t0 : List (List Char)} {g0 h0 h1 c0 : Nat}
    {rest : List Frame} {a : Nat} {v : ParseVal} {st' : Tk}
    (h : OkPost t0 g0 h1 c0 rest a v st') (hle : h0 ≤ h1) :
    OkPost t0 g0 h0 c0 rest a v st' := by
  cases v with
  | plain toks =>
    obtain ⟨x1, x2, x3, x4, x5⟩ := h
    exact ⟨x1, x2, x3, Nat.le_trans hle x4, x5⟩
  | heading toks level =>
    obtain ⟨x1, x2, x3, x4, x5⟩ := h
    exact ⟨x1, x2, x3, Nat.le_trans hle x4, x5⟩

/-! ### Unfolding lemmas for the loop body -/

theorem parseLoopF_endcase {fuel : Nat} {st : Tk}
    (hread : readVal st 0 false = ReadVal.END) :
    parseLoopF (fuel + 1) st =
      (if topContext st &&& (TEMPLATE ||| HEADING) ≠ 0 then
        match failRouteSt st with
        | none => none
        | some st' => some (Res.bad st')
      else
        match popF st with
        | none => none
        | some (toks, st') => some (Res.ok (ParseVal.plain toks) st')) := by
  simp only [parseLoopF]
  rw [hread]

theorem parseLoopF_seg {fuel : Nat} {st : Tk} {s : List Char}
    (hread : readVal st 0 false = ReadVal.seg s) :
    parseLoopF (fuel + 1) st =
      (if isMarkerSeg s = false then
        match writeTextF st s with
        | none => none
        | some st1 => parseLoopF fuel { st1 with head := st1.head + 1 }
      else
        if s = ['{'] ∧ readVal st 1 false = ReadVal.seg ['{'] then
          match parseLoopF fuel
              (push TEMPLATE_NAME { st with head := st.head + 2 }) with
          | none => none
          | some r =>
            match tmplAfter st.head r with
            | none => none
            | some st2 => parseLoopF fuel { st2 with head := st2.head + 1 }
        else if s = ['|'] ∧ topContext st &&& TEMPLATE ≠ 0 then
          match handleTemplateParam st with
          | none => none
          | some (Res.bad st') => some (Res.bad st')
          | some (Res.ok _ st1) => parseLoopF fuel { st1 with head := st1.head + 1 }
        else if s = ['='] ∧ topContext st &&& TEMPLATE_PARAM_KEY ≠ 0 then
          match handleTemplateParamValue st with
          | none => none
          | some st1 => parseLoopF fuel { st1 with head := st1.head + 1 }
        else if s = ['}'] ∧ readVal st 1 false = ReadVal.seg ['}'] ∧
            topContext st &&& TEMPLATE ≠ 0 then
          handleTemplateEnd st
        else if (readVal st (-1) false = ReadVal.seg ['\n'] ∨
            readVal st (-1) false = ReadVal.START) ∧
            s = ['='] ∧ st.glob &&& GL_HEADING = 0 then
          match parseLoopF fuel
              (push (HEADING_LEVEL_1 <<<
                  min (1 + countEqSegs (st.text.drop (st.head + 1)) - 1) 5)
                { st with
                  glob := (st.glob ||| GL_HEADING),
                  head := st.head + (1 + countEqSegs (st.text.drop (st.head + 1))) }) with
          | none => none
          | some r =>
            match headingAfter st.head
                (1 + countEqSegs (st.text.drop (st.head + 1))) r with
            | none => none
            | some st2 => parseLoopF fuel { st2 with head := st2.head + 1 }
        else if s = ['='] ∧ topContext st &&& HEADING ≠ 0 then
          match parseLoopF fuel
              (push (topContext st)
                { st with
                  head := st.head + (1 + countEqSegs (st.text.drop (st.head + 1))) }) with
          | none => none
          | some r =>
            headingEndAfter st.head (1 + countEqSegs (st.text.drop (st.head + 1)))
              (min (intLog2 (topContext st / HEADING_LEVEL_1) + 1)
                (min (1 + countEqSegs (st.text.drop (st.head + 1))) 6)) r
        else if s = ['\n'] ∧ topContext st &&& HEADING ≠ 0 then
          match failRouteSt st with
          | none => none
          | some st' => some (Res.bad st')
        else if s = ['&'] then
          match parseEntity st with
          | none => none
          | some st1 => parseLoopF fuel { st1 with head := st1.head + 1 }
        else
          match writeTextF st s with
          | none => none
          | some st1 => parseLoopF fuel { st1 with head := st1.head + 1 }) := by
  simp only [parseLoopF]
  rw [hread]

/-- The literal-text step shared by the non-marker branch and the final
catch-all branch of the dispatch. -/
theorem stepWriteText (fuel : Nat)
    (ih : ∀ (st : Tk) (f : Frame) (rest : List Frame) (a : Nat),
      LoopPre st f rest a →
      st.text.length + 1 ≤ fuel + min st.head st.text.length →
      LoopConc fuel st f rest a)
    {st : Tk} {f : Frame} {rest : List Frame} {a : Nat} {s : List Char}
    (hpre : LoopPre st f rest a)
    (hfuel : st.text.length + 1 ≤ (fuel + 1) + min st.head st.text.length)
    (hgets : st.text[st.head]? = some s) :
    ∃ r, (match writeTextF st s with
          | none => none
          | some st1 => parseLoopF fuel { st1 with head := st1.head + 1 }) =
        some r ∧
      (match r with
       | Res.ok v st' => OkPost st.text st.glob st.head f.context rest a v st'
       | Res.bad st' => BadPost st.text st.glob f.context rest st') := by
  obtain ⟨hstks, hsegs, hglob, hctx, hgl, hnat, hends, hlev, hnoh, hale, hcov⟩ := hpre
  have hlt : st.head < st.text.length := by
    by_contra hge
    rw [List.getElem?_eq_none (by omega)] at hgets
    exact absurd hgets (by simp)
  rw [writeTextF_eq hstks]
  have hpre2 : LoopPre ⟨st.text, st.head + 1, wtFrame f s :: rest, st.glob⟩
      (wtFrame f s) rest a := by
    refine ⟨rfl, hsegs, hglob, hctx, hgl, wtFrame_natB s hnat hends, hends, ?_,
      ?_, show a ≤ st.head + 1 by omega, ?_⟩
    · rw [wtFrame_levOK]
      exact hlev
    · intro hg
      rw [wtFrame_noHead]
      exact hnoh hg
    · intro lv
      rw [wtFrame_render, hcov lv]
      rw [show st.head + 1 - a = (st.head - a) + 1 from by omega, joinSlice_add]
      rw [show a + (st.head - a) = st.head from by omega, joinSlice_one]
      rw [List.getD_eq_getElem?_getD, hgets]
      rfl
  have hfuel2 : st.text.length + 1 ≤
      fuel + min (st.head + 1) st.text.length := by omega
  obtain ⟨r, heq, hpost⟩ := ih _ _ _ _ hpre2 hfuel2
  refine ⟨r, heq, ?_⟩
  cases r with
  | ok v st' => exact OkPost_mono_head hpost (show st.head ≤ st.head + 1 by omega)
  | bad st' => exact hpost

theorem cov_extendRun {text : List (List Char)} {a h n : Nat} {w : List Char}
    (hale : a ≤ h) (hrun : joinSlice text h n = w) :
    joinSlice text a (h - a) ++ w = joinSlice text a (h + n - a) := by
  rw [show h + n - a = (h - a) + n from by omega, joinSlice_add,
    show a + (h - a) = h from by omega, hrun]

theorem OkPost_tmplCtx {t0 : List (List Char)} {g0 h0 c c' : Nat}
    {rest : List Frame} {a : Nat} {v : ParseVal} {st' : Tk}
    (h : OkPost t0 g0 h0 c' rest a v st')
    (hH : c &&& HEADING = 0) (hH' : c' &&& HEADING = 0)
    (hT : c &&& TEMPLATE ≠ 0) (hT' : c' &&& TEMPLATE ≠ 0) :
    OkPost t0 g0 h0 c rest a v st' := by
  cases v with
  | plain toks =>
    obtain ⟨x1, x2, x3, x4, x5, x6, x7, x8, x9⟩ := h
    refine ⟨x1, x2, x3, x4, hH, x6, x7, x8, ?_⟩
    rcases x9 with ⟨hbad, _⟩ | ⟨_, hr⟩
    · exact absurd hbad hT'
    · exact Or.inr ⟨hT, hr⟩
  | heading toks level =>
    obtain ⟨x1, x2, x3, x4, x5, x6⟩ := h
    exact absurd hH' x5

theorem parseLoop_spec :
    ∀ (fuel : Nat) (st : Tk) (f : Frame) (rest : List Frame) (a : Nat),
    LoopPre st f rest a →
    st.text.length + 1 ≤ fuel + min st.head st.text.length →
    LoopConc fuel st f rest a := by
  intro fuel
  induction fuel with
  | zero =>
    intro st f rest a hpre hfuel
    exfalso
    have := Nat.min_le_right st.head st.text.length
    omega
  | succ fuel ih =>
    intro st f rest a hpre hfuel
    obtain ⟨hstks, hsegs, hglob, hctx, hgl, hnat, hends, hlev, hnoh, hale, hcov⟩ :=
      hpre
    have htop := topContext_eq hstks
    have hcx : f.context = 0 ∨ f.context = 1 ∨ f.context = 2 ∨ f.context = 4 ∨
        f.context = 8 ∨ f.context = 16 ∨ f.context = 32 ∨ f.context = 64 ∨
        f.context = 128 ∨ f.context = 256 := by
      simpa [ctxVals] using hctx
    cases hread : readVal st 0 false with
    | START => exact absurd hread (readVal_zero_ne_START st)
    | END =>
      have hL : st.text.length ≤ st.head := readVal_zero_end hread
      rw [LoopConc, parseLoopF_endcase hread]
      by_cases hguard : topContext st &&& (TEMPLATE ||| HEADING) ≠ 0
      · rw [if_pos hguard, failRouteSt_eq hstks]
        refine ⟨Res.bad { st with stks := rest }, rfl, rfl, rfl, rfl, ?_⟩
        rw [← htop]
        exact hguard
      · rw [if_neg hguard, popF_eq hstks]
        push_neg at hguard
        rw [htop] at hguard
        refine ⟨Res.ok (ParseVal.plain (flushedStack f)) { st with stks := rest },
          rfl, rfl, rfl, rfl, Nat.le_refl _, ?_, hnat, hlev, hnoh, Or.inl ⟨?_, hL, ?_⟩⟩
        · -- `c &&& HEADING = 0` follows from `c &&& (TEMPLATE ||| HEADING) = 0`
          rcases hcx with h | h | h | h | h | h | h | h | h | h <;> rw [h] <;>
            rw [h] at hguard <;> first | rfl | (exfalso; exact absurd rfl hguard) |
            (exfalso; revert hguard; decide)
        · rcases hcx with h | h | h | h | h | h | h | h | h | h <;> rw [h] <;>
            rw [h] at hguard <;> first | rfl | (exfalso; revert hguard; decide)
        · intro lv
          rw [hcov lv, joinSlice_all (by omega)]
    | seg s =>
      have hgets : st.text[st.head]? = some s := readVal_zero_seg hread
      have hlt : st.head < st.text.length := by
        by_contra hge
        rw [List.getElem?_eq_none (by omega)] at hgets
        exact absurd hgets (by simp)
      rw [LoopConc, parseLoopF_seg hread]
      by_cases hm : isMarkerSeg s = false
      · rw [if_pos hm]
        exact stepWriteText fuel ih
          ⟨hstks, hsegs, hglob, hctx, hgl, hnat, hends, hlev, hnoh, hale, hcov⟩
          hfuel hgets
      · rw [if_neg hm]
        by_cases hA : s = ['{'] ∧ readVal st 1 false = ReadVal.seg ['{']
        · rw [if_pos hA]
          obtain ⟨hA1, hA2⟩ := hA
          have hpreN : LoopPre
              ⟨st.text, st.head + 2, (⟨[], TEMPLATE_NAME, []⟩ : Frame) :: st.stks,
                st.glob⟩ ⟨[], TEMPLATE_NAME, []⟩ (f :: rest) (st.head + 2) := by
            refine ⟨?_, hsegs, hglob, show (1:Nat) ∈ ctxVals by decide, ?_, rfl,
              rfl, rfl, fun _ => rfl, Nat.le_refl _, ?_⟩
            · show (⟨[], TEMPLATE_NAME, []⟩ : Frame) :: st.stks = _
              rw [hstks]
            · intro hx
              exact absurd (show TEMPLATE_NAME &&& HEADING = 0 by decide) hx
            · intro lv
              rw [show st.head + 2 - (st.head + 2) = 0 from by omega, joinSlice_zero]
              rfl
          have hfuelN : st.text.length + 1 ≤
              fuel + min (st.head + 2) st.text.length := by omega
          obtain ⟨r0, heqr0, hpost0⟩ := ih _ _ _ _ hpreN hfuelN
          have heqr0' : parseLoopF fuel
              (push TEMPLATE_NAME { st with head := st.head + 2 }) = some r0 := heqr0
          cases r0 with
          | bad st1 =>
            have hb : BadPost st.text st.glob TEMPLATE_NAME (f :: rest) st1 := hpost0
            obtain ⟨hb1, hb2, hb3, _⟩ := hb
            obtain ⟨bh, hbh⟩ : ∃ bh, st1 = ⟨st.text, bh, f :: rest, st.glob⟩ := by
              refine ⟨st1.head, ?_⟩
              obtain ⟨a1, a2, a3, a4⟩ := st1
              simp_all
            have hstEq : (⟨st.text, st.head, f :: rest, st.glob⟩ : Tk) = st := by
              rw [← hstks]
            have htmpl : tmplAfter st.head (Res.bad st1) = writeTextF st ['{'] := by
              rw [hbh]
              show (match readVal (⟨st.text, st.head, f :: rest, st.glob⟩ : Tk)
                      0 false with
                    | ReadVal.seg u =>
                      writeTextF (⟨st.text, st.head, f :: rest, st.glob⟩ : Tk) u
                    | _ => none) = writeTextF st ['{']
              rw [hstEq, hread, hA1]
            obtain ⟨r, heqr, hpost⟩ := stepWriteText fuel ih
              ⟨hstks, hsegs, hglob, hctx, hgl, hnat, hends, hlev, hnoh, hale, hcov⟩
              hfuel (show st.text[st.head]? = some ['{'] by rw [hgets, hA1])
            refine ⟨r, ?_, hpost⟩
            rw [heqr0']
            show (match tmplAfter st.head (Res.bad st1) with
                  | none => none
                  | some st2 => parseLoopF fuel { st2 with head := st2.head + 1 }) =
                some r
            rw [htmpl]
            exact heqr
          | ok v st1 =>
            cases v with
            | heading toks level =>
              exfalso
              have hp : OkPost st.text st.glob (st.head + 2) TEMPLATE_NAME
                  (f :: rest) (st.head + 2) (ParseVal.heading toks level) st1 :=
                hpost0
              obtain ⟨_, _, _, _, x5, _⟩ := hp
              exact absurd (show TEMPLATE_NAME &&& HEADING = 0 by decide) x5
            | plain toks =>
              have hp : OkPost st.text st.glob (st.head + 2) TEMPLATE_NAME
                  (f :: rest) (st.head + 2) (ParseVal.plain toks) st1 := hpost0
              obtain ⟨y1, y2, y3, y4, y5, ynat, ylev, ynoh, ydisj⟩ := hp
              rcases ydisj with ⟨yT, _⟩ | ⟨_, yr⟩
              · exact absurd yT (show TEMPLATE_NAME &&& TEMPLATE ≠ 0 by decide)
              rcases @writeAllSpec
                  { st1 with stks :=
                    (⟨flushedStack f ++ [Token.TemplateOpen], f.context, []⟩ :
                      Frame) :: rest }
                  ⟨flushedStack f ++ [Token.TemplateOpen], f.context, []⟩
                  rest toks rfl with
                ⟨f3, hw, hf3c, hf3b, hf3s, hwr, hwnat, hwlev, hwnoh, hwends, hwlevA⟩
              have hfc3 : f3.context = f.context := hf3c
              have htA : tmplAfter st.head (Res.ok (ParseVal.plain toks) st1) =
                  some { st1 with stks :=
                    (⟨flushedStack f3 ++ [Token.TemplateClose], f3.context, []⟩ :
                      Frame) :: rest } := by
                show (match writeTokF st1 Token.TemplateOpen with
                      | none => none
                      | some st2 =>
                        match writeAllF st2 toks with
                        | none => none
                        | some st3 => writeTokF st3 Token.TemplateClose) = _
                rw [writeTokF_eq y3]
                show (match writeAllF
                        { st1 with stks :=
                          (⟨flushedStack f ++ [Token.TemplateOpen], f.context, []⟩ :
                            Frame) :: rest } toks with
                      | none => none
                      | some st3 => writeTokF st3 Token.TemplateClose) = _
                rw [hw]
                show writeTokF { st1 with stks := f3 :: rest }
                    Token.TemplateClose = _
                rw [writeTokF_eq (show ({ st1 with stks := f3 :: rest } : Tk).stks =
                  f3 :: rest from rfl)]
              have hpre2 : LoopPre
                  ⟨st1.text, st1.head + 1,
                    (⟨flushedStack f3 ++ [Token.TemplateClose], f3.context, []⟩ :
                      Frame) :: rest, st1.glob⟩
                  ⟨flushedStack f3 ++ [Token.TemplateClose], f3.context, []⟩
                  rest a := by
                have hnatf2 : natB (flushedStack
                    (⟨flushedStack f ++ [Token.TemplateOpen], f.context, []⟩ :
                      Frame)) = true := by
                  rw [flushedStack_nilbuf]
                  exact natB_snoc_of_nonText hnat rfl
                have hendf2 : endsNT (⟨flushedStack f ++ [Token.TemplateOpen],
                    f.context, []⟩ : Frame).stack = true := by
                  show endsNT (flushedStack f ++ [Token.TemplateOpen]) = true
                  rw [endsNT_append_singleton]
                  rfl
                refine ⟨rfl, ?_, ?_, ?_, ?_, ?_, ?_, ?_, ?_, ?_, ?_⟩
                · rw [y1]
                  exact hsegs
                · rw [y2]
                  exact hglob
                · rw [hfc3]
                  exact hctx
                · intro hx
                  rw [y2]
                  refine hgl ?_
                  rw [← hfc3]
                  exact hx
                · rw [flushedStack_nilbuf]
                  exact natB_snoc_of_nonText (hwnat hnatf2 hendf2 ynat) rfl
                · show endsNT (flushedStack f3 ++ [Token.TemplateClose]) = true
                  rw [endsNT_append_singleton]
                  rfl
                · rw [flushedStack_nilbuf, levOKB_append, hwlev,
                    flushedStack_nilbuf, levOKB_append, hlev, ylev]
                  decide
                · intro hg
                  have hg' : st.glob = 1 := by
                    rw [← y2]
                    exact hg
                  rw [flushedStack_nilbuf, noHeadTB_append, hwnoh,
                    flushedStack_nilbuf, noHeadTB_append, hnoh hg', ynoh hg']
                  decide
                · show a ≤ st1.head + 1
                  omega
                · intro lv
                  show renderToks (flushedStack
                      ⟨flushedStack f3 ++ [Token.TemplateClose], f3.context, []⟩)
                      lv = joinSlice st1.text a (st1.head + 1 - a)
                  rw [y1, flushedStack_nilbuf, renderToks_append, hwr lv,
                    flushedStack_nilbuf, renderToks_append, renderToks_append,
                    hcov lv]
                  rw [show renderToks [Token.TemplateOpen]
                    (levelAfter (flushedStack f) lv) = ['{', '{'] from rfl]
                  rw [show renderToks [Token.TemplateClose]
                    (levelAfter (flushedStack f3) lv) = ['}', '}'] from rfl]
                  have hbrace : joinSlice st.text st.head 2 = ['{', '{'] := by
                    rw [show (2:Nat) = 1 + 1 from rfl, joinSlice_add, joinSlice_one,
                      joinSlice_one, List.getD_eq_getElem?_getD, hgets, hA1,
                      List.getD_eq_getElem?_getD, readVal_one_seg hA2]
                    rfl
                  rw [cov_extendRun hale hbrace, List.append_assoc, yr]
                  rw [cov_extendRun (show a ≤ st.head + 2 by omega)
                    (rfl : joinSlice st.text (st.head + 2)
                      (st1.head + 1 - (st.head + 2)) = _)]
                  rw [show st.head + 2 + (st1.head + 1 - (st.head + 2)) - a =
                    st1.head + 1 - a from by omega]
              have hfuel2 : st1.text.length + 1 ≤
                  fuel + min (st1.head + 1) st1.text.length := by
                rw [y1]
                omega
              obtain ⟨r, heqr, hpost⟩ := ih _ _ _ _ hpre2 hfuel2
              refine ⟨r, ?_, ?_⟩
              · rw [heqr0']
                show (match tmplAfter st.head (Res.ok (ParseVal.plain toks) st1) with
                      | none => none
                      | some st2 =>
                        parseLoopF fuel { st2 with head := st2.head + 1 }) = some r
                rw [htA]
                exact heqr
              · cases r with
                | ok v st2 =>
                  have hpost' : OkPost st1.text st1.glob (st1.head + 1) f3.context
                      rest a v st2 := hpost
                  rw [y1, y2, hfc3] at hpost'
                  exact OkPost_mono_head hpost' (by omega)
                | bad st2 =>
                  have hpost' : BadPost st1.text st1.glob f3.context rest st2 :=
                    hpost
                  rw [y1, y2, hfc3] at hpost'
                  exact hpost'
        rw [if_neg hA]
        by_cases hB : s = ['|'] ∧ topContext st &&& TEMPLATE ≠ 0
        · rw [if_pos hB]
          obtain ⟨hB1, hB2⟩ := hB
          rw [htop] at hB2
          have hc124 : f.context = 1 ∨ f.context = 2 ∨ f.context = 4 := by
            rcases hcx with h | h | h | h | h | h | h | h | h | h <;>
              first
                | (exact absurd (show f.context &&& TEMPLATE = 0 by
                    rw [h]; decide) hB2)
                | (exact Or.inl h)
                | (exact Or.inr (Or.inl h))
                | (exact Or.inr (Or.inr h))
          rcases handleTemplateParamSpec hstks hc124 with ⟨hc1, hbad, heqB⟩ | heqB
          · refine ⟨Res.bad { st with stks := rest }, by rw [heqB], rfl, rfl, rfl, ?_⟩
            rw [hc1]
            decide
          · have hpre2 : LoopPre
                ⟨st.text, st.head + 1,
                  (⟨flushedStack f ++ [Token.TemplateParamSeparator], 2, []⟩ :
                    Frame) :: rest, st.glob⟩
                ⟨flushedStack f ++ [Token.TemplateParamSeparator], 2, []⟩ rest a := by
              refine ⟨rfl, hsegs, hglob, show (2:Nat) ∈ ctxVals by decide,
                ?_, ?_, ?_, ?_, ?_, show a ≤ st.head + 1 by omega, ?_⟩
              · intro hx
                exact absurd (show (2:Nat) &&& HEADING = 0 by decide) hx
              · rw [flushedStack_nilbuf]
                exact natB_snoc_of_nonText hnat rfl
              · rw [show (⟨flushedStack f ++ [Token.TemplateParamSeparator], 2, []⟩ :
                    Frame).stack = flushedStack f ++ [Token.TemplateParamSeparator]
                    from rfl, endsNT_append_singleton]
                rfl
              · rw [flushedStack_nilbuf, levOKB_append, hlev]
                rfl
              · intro hg
                rw [flushedStack_nilbuf, noHeadTB_append, hnoh hg]
                rfl
              · intro lv
                rw [flushedStack_nilbuf, renderToks_append, hcov lv]
                exact cov_extendRun hale (by
                  rw [joinSlice_one, List.getD_eq_getElem?_getD, hgets, hB1]
                  rfl)
            have hfuel2 : st.text.length + 1 ≤
                fuel + min (st.head + 1) st.text.length := by omega
            obtain ⟨r, heqr, hpost⟩ := ih _ _ _ _ hpre2 hfuel2
            refine ⟨r, ?_, ?_⟩
            · rw [heqB]
              exact heqr
            · cases r with
              | ok v st' =>
                exact OkPost_mono_head
                  (OkPost_tmplCtx hpost
                    (by rcases hc124 with h | h | h <;> rw [h] <;> decide)
                    (show (2:Nat) &&& HEADING = 0 by decide) hB2
                    (show (2:Nat) &&& TEMPLATE ≠ 0 by decide))
                  (Nat.le_succ st.head)
              | bad st' =>
                obtain ⟨x1, x2, x3, _⟩ := hpost
                refine ⟨x1, x2, x3, ?_⟩
                rcases hc124 with h | h | h <;> rw [h] <;> decide
        rw [if_neg hB]
        by_cases hC : s = ['='] ∧ topContext st &&& TEMPLATE_PARAM_KEY ≠ 0
        · rw [if_pos hC]
          obtain ⟨hC1, hC2⟩ := hC
          rw [htop] at hC2
          have hc2 : f.context = 2 := by
            rcases hcx with h | h | h | h | h | h | h | h | h | h <;>
              first
                | (exact absurd (show f.context &&& TEMPLATE_PARAM_KEY = 0 by
                    rw [h]; decide) hC2)
                | (exact h)
          have heqC := handleTemplateParamValueSpec hstks hc2
          have hpre2 : LoopPre
              ⟨st.text, st.head + 1,
                (⟨flushedStack f ++ [Token.TemplateParamEquals], 4, []⟩ :
                  Frame) :: rest, st.glob⟩
              ⟨flushedStack f ++ [Token.TemplateParamEquals], 4, []⟩ rest a := by
            refine ⟨rfl, hsegs, hglob, show (4:Nat) ∈ ctxVals by decide,
              ?_, ?_, ?_, ?_, ?_, show a ≤ st.head + 1 by omega, ?_⟩
            · intro hx
              exact absurd (show (4:Nat) &&& HEADING = 0 by decide) hx
            · rw [flushedStack_nilbuf]
              exact natB_snoc_of_nonText hnat rfl
            · rw [show (⟨flushedStack f ++ [Token.TemplateParamEquals], 4, []⟩ :
                  Frame).stack = flushedStack f ++ [Token.TemplateParamEquals]
                  from rfl, endsNT_append_singleton]
              rfl
            · rw [flushedStack_nilbuf, levOKB_append, hlev]
              rfl
            · intro hg
              rw [flushedStack_nilbuf, noHeadTB_append, hnoh hg]
              rfl
            · intro lv
              rw [flushedStack_nilbuf, renderToks_append, hcov lv]
              exact cov_extendRun hale (by
                rw [joinSlice_one, List.getD_eq_getElem?_getD, hgets, hC1]
                rfl)
          have hfuel2 : st.text.length + 1 ≤
              fuel + min (st.head + 1) st.text.length := by omega
          obtain ⟨r, heqr, hpost⟩ := ih _ _ _ _ hpre2 hfuel2
          refine ⟨r, ?_, ?_⟩
          · rw [heqC]
            exact heqr
          · cases r with
            | ok v st' =>
              exact OkPost_mono_head
                (OkPost_tmplCtx hpost
                  (show f.context &&& HEADING = 0 by rw [hc2]; decide)
                  (show (4:Nat) &&& HEADING = 0 by decide)
                  (show f.context &&& TEMPLATE ≠ 0 by rw [hc2]; decide)
                  (show (4:Nat) &&& TEMPLATE ≠ 0 by decide))
                (Nat.le_succ st.head)
            | bad st' =>
              obtain ⟨x1, x2, x3, _⟩ := hpost
              refine ⟨x1, x2, x3, ?_⟩
              rw [hc2]
              decide
        rw [if_neg hC]
        by_cases hD : s = ['}'] ∧ readVal st 1 false = ReadVal.seg ['}'] ∧
            topContext st &&& TEMPLATE ≠ 0
        · rw [if_pos hD]
          obtain ⟨hD1, hD2, hD3⟩ := hD
          rw [htop] at hD3
          have hc124 : f.context = 1 ∨ f.context = 2 ∨ f.context = 4 := by
            rcases hcx with h | h | h | h | h | h | h | h | h | h <;>
              first
                | (exact absurd (show f.context &&& TEMPLATE = 0 by
                    rw [h]; decide) hD3)
                | (exact Or.inl h)
                | (exact Or.inr (Or.inl h))
                | (exact Or.inr (Or.inr h))
          rcases handleTemplateEndSpec hstks hc124 with ⟨hc1, hbad, heqD⟩ | heqD
          · refine ⟨Res.bad { st with stks := rest }, heqD, rfl, rfl, rfl, ?_⟩
            rw [hc1]
            decide
          · refine ⟨Res.ok (ParseVal.plain (flushedStack f))
              { st with head := st.head + 1, stks := rest }, heqD,
              rfl, rfl, rfl, Nat.le_succ st.head, ?_, hnat, hlev, hnoh,
              Or.inr ⟨hD3, ?_⟩⟩
            · rcases hc124 with h | h | h <;> rw [h] <;> decide
            · intro lv
              have hrun : joinSlice st.text st.head 2 = ['}', '}'] := by
                rw [show (2:Nat) = 1 + 1 from rfl, joinSlice_add, joinSlice_one,
                  joinSlice_one, List.getD_eq_getElem?_getD, hgets, hD1,
                  List.getD_eq_getElem?_getD, readVal_one_seg hD2]
                rfl
              rw [hcov lv]
              exact cov_extendRun hale hrun
        rw [if_neg hD]
        by_cases hE : (readVal st (-1) false = ReadVal.seg ['\n'] ∨
            readVal st (-1) false = ReadVal.START) ∧
            s = ['='] ∧ st.glob &&& GL_HEADING = 0
        · rw [if_pos hE]
          obtain ⟨hEp, hE1, hE2⟩ := hE
          have hg0 : st.glob = 0 := by
            have hor : st.glob = 0 ∨ st.glob = 1 := by omega
            rcases hor with h | h
            · exact h
            · rw [h] at hE2
              exact absurd hE2 (by decide)
          have hcurEq : st.text.getD st.head [] = ['='] := by
            rw [List.getD_eq_getElem?_getD, hgets, hE1]
            rfl
          have hbestle : st.head + (1 + countEqSegs (st.text.drop (st.head + 1))) ≤
              st.text.length := by
            have hc := countEqSegs_le (st.text.drop (st.head + 1))
            rw [List.length_drop] at hc
            omega
          have hfax := heading_ctx_facts
            (min (1 + countEqSegs (st.text.drop (st.head + 1)) - 1) 5)
            (Nat.min_le_right _ _)
          rw [hg0, show (0:Nat) ||| GL_HEADING = 1 from by decide]
          have hpreN : LoopPre
              ⟨st.text, st.head + (1 + countEqSegs (st.text.drop (st.head + 1))),
                (⟨[], HEADING_LEVEL_1 <<<
                  min (1 + countEqSegs (st.text.drop (st.head + 1)) - 1) 5, []⟩ :
                  Frame) :: st.stks, 1⟩
              ⟨[], HEADING_LEVEL_1 <<<
                min (1 + countEqSegs (st.text.drop (st.head + 1)) - 1) 5, []⟩
              (f :: rest)
              (st.head + (1 + countEqSegs (st.text.drop (st.head + 1)))) := by
            refine ⟨?_, hsegs, Nat.le_refl 1, hfax.1, fun _ => rfl, rfl, rfl, rfl,
              fun _ => rfl, Nat.le_refl _, ?_⟩
            · show (⟨[], HEADING_LEVEL_1 <<<
                  min (1 + countEqSegs (st.text.drop (st.head + 1)) - 1) 5, []⟩ :
                  Frame) :: st.stks = _
              rw [hstks]
            · intro lv
              rw [Nat.sub_self, joinSlice_zero]
              rfl
          have hfuelN : st.text.length + 1 ≤ fuel +
              min (st.head + (1 + countEqSegs (st.text.drop (st.head + 1))))
                st.text.length := by omega
          obtain ⟨r0, heqr0, hpost0⟩ := ih _ _ _ _ hpreN hfuelN
          have heqr0' : parseLoopF fuel
              (push (HEADING_LEVEL_1 <<<
                  min (1 + countEqSegs (st.text.drop (st.head + 1)) - 1) 5)
                { st with
                  glob := 1,
                  head := st.head +
                    (1 + countEqSegs (st.text.drop (st.head + 1))) }) = some r0 :=
            heqr0
          cases r0 with
          | bad st1 =>
            have hb : BadPost st.text 1
                (HEADING_LEVEL_1 <<<
                  min (1 + countEqSegs (st.text.drop (st.head + 1)) - 1) 5)
                (f :: rest) st1 := hpost0
            obtain ⟨hb1, hb2, hb3, _⟩ := hb
            obtain ⟨bh, hbh⟩ : ∃ bh, st1 = ⟨st.text, bh, f :: rest, 1⟩ := by
              refine ⟨st1.head, ?_⟩
              obtain ⟨a1, a2, a3, a4⟩ := st1
              simp_all
            have hha : headingAfter st.head
                (1 + countEqSegs (st.text.drop (st.head + 1))) (Res.bad st1) =
                some ⟨st.text,
                  st.head + (1 + countEqSegs (st.text.drop (st.head + 1))) - 1,
                  wtFrame f (List.replicate
                    (1 + countEqSegs (st.text.drop (st.head + 1))) '=') :: rest,
                  0⟩ := by
              rw [hbh]
              show (match writeTextF
                      (⟨st.text,
                        st.head + (1 + countEqSegs (st.text.drop (st.head + 1))) - 1,
                        f :: rest, 1⟩ : Tk)
                      (List.replicate
                        (1 + countEqSegs (st.text.drop (st.head + 1))) '=') with
                    | none => none
                    | some st2 =>
                      some { st2 with glob := st2.glob ^^^ GL_HEADING }) = _
              rw [writeTextF_eq (show (⟨st.text,
                st.head + (1 + countEqSegs (st.text.drop (st.head + 1))) - 1,
                f :: rest, 1⟩ : Tk).stks = f :: rest from rfl)]
              show some ((⟨st.text,
                  st.head + (1 + countEqSegs (st.text.drop (st.head + 1))) - 1,
                  wtFrame f (List.replicate
                    (1 + countEqSegs (st.text.drop (st.head + 1))) '=') :: rest,
                  1 ^^^ GL_HEADING⟩ : Tk)) = _
              rw [show (1:Nat) ^^^ GL_HEADING = 0 from by decide]
            have hpre2 : LoopPre
                ⟨st.text,
                  st.head + (1 + countEqSegs (st.text.drop (st.head + 1))) - 1 + 1,
                  wtFrame f (List.replicate
                    (1 + countEqSegs (st.text.drop (st.head + 1))) '=') :: rest,
                  0⟩
                (wtFrame f (List.replicate
                  (1 + countEqSegs (st.text.drop (st.head + 1))) '=')) rest a := by
              refine ⟨rfl, hsegs, Nat.zero_le 1, hctx, ?_,
                wtFrame_natB _ hnat hends, hends, ?_, ?_, ?_, ?_⟩
              · intro hx
                exfalso
                have h1 := hgl hx
                omega
              · rw [wtFrame_levOK]
                exact hlev
              · intro hg
                exact absurd hg (show ¬((0:Nat) = 1) by decide)
              · show a ≤
                  st.head + (1 + countEqSegs (st.text.drop (st.head + 1))) - 1 + 1
                omega
              · intro lv
                show renderToks (flushedStack (wtFrame f (List.replicate
                    (1 + countEqSegs (st.text.drop (st.head + 1))) '='))) lv =
                  joinSlice st.text a
                    (st.head + (1 + countEqSegs (st.text.drop (st.head + 1))) - 1 +
                      1 - a)
                rw [wtFrame_render, hcov lv,
                  cov_extendRun hale (eqRun_slice hcurEq),
                  show st.head + (1 + countEqSegs (st.text.drop (st.head + 1))) - 1 +
                    1 - a =
                    st.head + (1 + countEqSegs (st.text.drop (st.head + 1))) - a
                    from by omega]
            have hfuel2 : st.text.length + 1 ≤ fuel +
                min (st.head + (1 + countEqSegs (st.text.drop (st.head + 1))) - 1 + 1)
                  st.text.length := by omega
            obtain ⟨r, heqr, hpost⟩ := ih _ _ _ _ hpre2 hfuel2
            refine ⟨r, ?_, ?_⟩
            · rw [heqr0']
              show (match headingAfter st.head
                      (1 + countEqSegs (st.text.drop (st.head + 1)))
                      (Res.bad st1) with
                    | none => none
                    | some st2 => parseLoopF fuel { st2 with head := st2.head + 1 }) =
                  some r
              rw [hha]
              exact heqr
            · cases r with
              | ok v st2 =>
                exact OkPost_mono_head hpost
                  (show st.head ≤
                    st.head + (1 + countEqSegs (st.text.drop (st.head + 1))) - 1 + 1
                    from by omega)
              | bad st2 =>
                exact hpost
          | ok v st1 =>
            cases v with
            | plain toks =>
              exfalso
              have hp : OkPost st.text 1
                  (st.head + (1 + countEqSegs (st.text.drop (st.head + 1))))
                  (HEADING_LEVEL_1 <<<
                    min (1 + countEqSegs (st.text.drop (st.head + 1)) - 1) 5)
                  (f :: rest)
                  (st.head + (1 + countEqSegs (st.text.drop (st.head + 1))))
                  (ParseVal.plain toks) st1 := hpost0
              obtain ⟨_, _, _, _, x5, _⟩ := hp
              exact hfax.2.2.1 x5
            | heading toks level =>
              have hp : OkPost st.text 1
                  (st.head + (1 + countEqSegs (st.text.drop (st.head + 1))))
                  (HEADING_LEVEL_1 <<<
                    min (1 + countEqSegs (st.text.drop (st.head + 1)) - 1) 5)
                  (f :: rest)
                  (st.head + (1 + countEqSegs (st.text.drop (st.head + 1))))
                  (ParseVal.heading toks level) st1 := hpost0
              obtain ⟨y1, y2, y3, y4, y5, ynat, ylev, ynoh, yl1, yl2, yr⟩ := hp
              have hl6 : level ≤ 6 ∧
                  level ≤ 1 + countEqSegs (st.text.drop (st.head + 1)) := by
                have h21 := hfax.2.1
                omega
              by_cases hlb : level < 1 + countEqSegs (st.text.drop (st.head + 1))
              · rcases @writeAllSpec
                    { st1 with stks := (wtFrame
                      ⟨flushedStack f ++ [Token.HeadingStart level], f.context, []⟩
                      (List.replicate
                        (1 + countEqSegs (st.text.drop (st.head + 1)) - level) '='))
                      :: rest }
                    (wtFrame
                      ⟨flushedStack f ++ [Token.HeadingStart level], f.context, []⟩
                      (List.replicate
                        (1 + countEqSegs (st.text.drop (st.head + 1)) - level) '='))
                    rest toks rfl with
                  ⟨f4, hw, hfc4, hfb4, hfs4, hwr, hwnat, hwlev, hwnoh, hwends,
                    hwlevA⟩
                have hfc4' : f4.context = f.context := hfc4
                have hhaOk : headingAfter st.head
                    (1 + countEqSegs (st.text.drop (st.head + 1)))
                    (Res.ok (ParseVal.heading toks level) st1) =
                    some ⟨st.text, st1.head,
                      (⟨flushedStack f4 ++ [Token.HeadingEnd], f4.context, []⟩ :
                        Frame) :: rest, 0⟩ := by
                  show (match writeTokF st1 (Token.HeadingStart level) with
                        | none => none
                        | some st2 =>
                          match (if level <
                              1 + countEqSegs (st.text.drop (st.head + 1)) then
                            writeTextF st2 (List.replicate
                              (1 + countEqSegs (st.text.drop (st.head + 1)) - level)
                              '=')
                          else some st2) with
                          | none => none
                          | some st3 =>
                            match writeAllF st3 toks with
                            | none => none
                            | some st4 =>
                              match writeTokF st4 Token.HeadingEnd with
                              | none => none
                              | some st5 =>
                                some { st5 with
                                  glob := st5.glob ^^^ GL_HEADING }) = _
                  rw [writeTokF_eq y3]
                  show (match (if level <
                          1 + countEqSegs (st.text.drop (st.head + 1)) then
                        writeTextF
                          { st1 with stks :=
                            (⟨flushedStack f ++ [Token.HeadingStart level],
                              f.context, []⟩ : Frame) :: rest }
                          (List.replicate
                            (1 + countEqSegs (st.text.drop (st.head + 1)) - level)
                            '=')
                      else some { st1 with stks :=
                        (⟨flushedStack f ++ [Token.HeadingStart level],
                          f.context, []⟩ : Frame) :: rest }) with
                      | none => none
                      | some st3 =>
                        match writeAllF st3 toks with
                        | none => none
                        | some st4 =>
                          match writeTokF st4 Token.HeadingEnd with
                          | none => none
                          | some st5 =>
                            some { st5 with glob := st5.glob ^^^ GL_HEADING }) = _
                  rw [if_pos hlb,
                    writeTextF_eq (show ({ st1 with stks :=
                      (⟨flushedStack f ++ [Token.HeadingStart level], f.context, []⟩ :
                        Frame) :: rest } : Tk).stks =
                      (⟨flushedStack f ++ [Token.HeadingStart level], f.context, []⟩ :
                        Frame) :: rest from rfl)]
                  show (match writeAllF
                          { st1 with stks := (wtFrame
                            ⟨flushedStack f ++ [Token.HeadingStart level],
                              f.context, []⟩
                            (List.replicate
                              (1 + countEqSegs (st.text.drop (st.head + 1)) - level)
                              '=')) :: rest } toks with
                        | none => none
                        | some st4 =>
                          match writeTokF st4 Token.HeadingEnd with
                          | none => none
                          | some st5 =>
                            some { st5 with glob := st5.glob ^^^ GL_HEADING }) = _
                  rw [hw]
                  show (match writeTokF { st1 with stks := f4 :: rest }
                          Token.HeadingEnd with
                        | none => none
                        | some st5 =>
                          some { st5 with glob := st5.glob ^^^ GL_HEADING }) = _
                  rw [writeTokF_eq (show ({ st1 with stks := f4 :: rest } : Tk).stks =
                    f4 :: rest from rfl)]
                  show some ((⟨st1.text, st1.head,
                      (⟨flushedStack f4 ++ [Token.HeadingEnd], f4.context, []⟩ :
                        Frame) :: rest, st1.glob ^^^ GL_HEADING⟩ : Tk)) = _
                  rw [y1, y2, show (1:Nat) ^^^ GL_HEADING = 0 from by decide]
                have hpre2 : LoopPre
                    ⟨st.text, st1.head + 1,
                      (⟨flushedStack f4 ++ [Token.HeadingEnd], f4.context, []⟩ :
                        Frame) :: rest, 0⟩
                    ⟨flushedStack f4 ++ [Token.HeadingEnd], f4.context, []⟩
                    rest a := by
                  have hnatf2 : natB (flushedStack
                      (⟨flushedStack f ++ [Token.HeadingStart level], f.context, []⟩ :
                        Frame)) = true := by
                    rw [flushedStack_nilbuf]
                    exact natB_snoc_of_nonText hnat rfl
                  have hendf2 : endsNT (⟨flushedStack f ++ [Token.HeadingStart level],
                      f.context, []⟩ : Frame).stack = true := by
                    show endsNT (flushedStack f ++ [Token.HeadingStart level]) = true
                    rw [endsNT_append_singleton]
                    rfl
                  refine ⟨rfl, hsegs, Nat.zero_le 1, ?_, ?_, ?_, ?_, ?_, ?_, ?_, ?_⟩
                  · rw [hfc4']
                    exact hctx
                  · intro hx
                    exfalso
                    rw [hfc4'] at hx
                    have h1 := hgl hx
                    omega
                  · rw [flushedStack_nilbuf]
                    exact natB_snoc_of_nonText
                      (hwnat (wtFrame_natB _ hnatf2 hendf2) hendf2 ynat) rfl
                  · show endsNT (flushedStack f4 ++ [Token.HeadingEnd]) = true
                    rw [endsNT_append_singleton]
                    rfl
                  · rw [flushedStack_nilbuf, levOKB_append, hwlev, wtFrame_levOK,
                      flushedStack_nilbuf, levOKB_append, hlev, ylev]
                    simp [levOKB]
                    omega
                  · intro hg
                    exact absurd hg (show ¬((0:Nat) = 1) by decide)
                  · show a ≤ st1.head + 1
                    omega
                  · intro lv
                    show renderToks (flushedStack
                        ⟨flushedStack f4 ++ [Token.HeadingEnd], f4.context, []⟩) lv =
                      joinSlice st.text a (st1.head + 1 - a)
                    have hlevA4 : levelAfter (flushedStack f4) lv = level := by
                      rw [hwlevA lv, levelAfter_append,
                        levelAfter_of_noHead toks ynoh, levelAfter_flushed_wt,
                        flushedStack_nilbuf, levelAfter_append]
                      simp [levelAfter]
                    have hreplsplit : List.replicate
                        (1 + countEqSegs (st.text.drop (st.head + 1))) ('=' : Char) =
                        List.replicate level '=' ++ List.replicate
                          (1 + countEqSegs (st.text.drop (st.head + 1)) - level)
                          '=' := by
                      rw [← List.replicate_add]
                      congr 1
                      omega
                    have hsplit : joinSlice st.text a (st1.head + 1 - a) =
                        joinSlice st.text a (st.head - a) ++
                          (List.replicate
                            (1 + countEqSegs (st.text.drop (st.head + 1))) '=' ++
                           (renderToks toks (levelAfter (flushedStack
                             (wtFrame
                               ⟨flushedStack f ++ [Token.HeadingStart level],
                                 f.context, []⟩
                               (List.replicate (1 + countEqSegs
                                 (st.text.drop (st.head + 1)) - level) '='))) lv) ++
                            List.replicate level '=')) := by
                      rw [show st1.head + 1 - a = (st.head - a) +
                        ((1 + countEqSegs (st.text.drop (st.head + 1))) +
                          (st1.head + 1 - (st.head +
                            (1 + countEqSegs (st.text.drop (st.head + 1)))))) from
                        by omega, joinSlice_add,
                        show a + (st.head - a) = st.head from by omega, joinSlice_add,
                        eqRun_slice hcurEq,
                        ← yr (levelAfter (flushedStack
                          (wtFrame
                            ⟨flushedStack f ++ [Token.HeadingStart level],
                              f.context, []⟩
                            (List.replicate (1 + countEqSegs
                              (st.text.drop (st.head + 1)) - level) '='))) lv)]
                    rw [flushedStack_nilbuf, renderToks_append, hlevA4,
                      show renderToks [Token.HeadingEnd] level =
                        List.replicate level '=' from by simp [renderToks],
                      hwr lv, renderToks_append, wtFrame_render, flushedStack_nilbuf,
                      renderToks_append,
                      show renderToks [Token.HeadingStart level]
                        (levelAfter (flushedStack f) lv) =
                        List.replicate level '=' from by simp [renderToks],
                      hcov lv, hsplit, hreplsplit]
                    simp only [List.append_assoc]
                have hfuel2 : st.text.length + 1 ≤ fuel +
                    min (st1.head + 1) st.text.length := by omega
                obtain ⟨r, heqr, hpost⟩ := ih _ _ _ _ hpre2 hfuel2
                refine ⟨r, ?_, ?_⟩
                · rw [heqr0']
                  show (match headingAfter st.head
                          (1 + countEqSegs (st.text.drop (st.head + 1)))
                          (Res.ok (ParseVal.heading toks level) st1) with
                        | none => none
                        | some st2 =>
                          parseLoopF fuel { st2 with head := st2.head + 1 }) = some r
                  rw [hhaOk]
                  exact heqr
                · cases r with
                  | ok v2 st2 =>
                    have hpost' : OkPost st.text 0 (st1.head + 1) f4.context rest a
                        v2 st2 := hpost
                    rw [hfc4'] at hpost'
                    exact OkPost_mono_head hpost'
                      (show st.head ≤ st1.head + 1 from by omega)
                  | bad st2 =>
                    have hpost' : BadPost st.text 0 f4.context rest st2 := hpost
                    rw [hfc4'] at hpost'
                    exact hpost'
              · have hlevEq : level =
                    1 + countEqSegs (st.text.drop (st.head + 1)) := by omega
                rcases @writeAllSpec
                    { st1 with stks :=
                      (⟨flushedStack f ++ [Token.HeadingStart level], f.context, []⟩ :
                        Frame) :: rest }
                    ⟨flushedStack f ++ [Token.HeadingStart level], f.context, []⟩
                    rest toks rfl with
                  ⟨f4, hw, hfc4, hfb4, hfs4, hwr, hwnat, hwlev, hwnoh, hwends,
                    hwlevA⟩
                have hfc4' : f4.context = f.context := hfc4
                have hhaOk : headingAfter st.head
                    (1 + countEqSegs (st.text.drop (st.head + 1)))
                    (Res.ok (ParseVal.heading toks level) st1) =
                    some ⟨st.text, st1.head,
                      (⟨flushedStack f4 ++ [Token.HeadingEnd], f4.context, []⟩ :
                        Frame) :: rest, 0⟩ := by
                  show (match writeTokF st1 (Token.HeadingStart level) with
                        | none => none
                        | some st2 =>
                          match (if level <
                              1 + countEqSegs (st.text.drop (st.head + 1)) then
                            writeTextF st2 (List.replicate
                              (1 + countEqSegs (st.text.drop (st.head + 1)) - level)
                              '=')
                          else some st2) with
                          | none => none
                          | some st3 =>
                            match writeAllF st3 toks with
                            | none => none
                            | some st4 =>
                              match writeTokF st4 Token.HeadingEnd with
                              | none => none
                              | some st5 =>
                                some { st5 with
                                  glob := st5.glob ^^^ GL_HEADING }) = _
                  rw [writeTokF_eq y3]
                  show (match (if level <
                          1 + countEqSegs (st.text.drop (st.head + 1)) then
                        writeTextF
                          { st1 with stks :=
                            (⟨flushedStack f ++ [Token.HeadingStart level],
                              f.context, []⟩ : Frame) :: rest }
                          (List.replicate
                            (1 + countEqSegs (st.text.drop (st.head + 1)) - level)
                            '=')
                      else some { st1 with stks :=
                        (⟨flushedStack f ++ [Token.HeadingStart level],
                          f.context, []⟩ : Frame) :: rest }) with
                      | none => none
                      | some st3 =>
                        match writeAllF st3 toks with
                        | none => none
                        | some st4 =>
                          match writeTokF st4 Token.HeadingEnd with
                          | none => none
                          | some st5 =>
                            some { st5 with glob := st5.glob ^^^ GL_HEADING }) = _
                  rw [if_neg hlb]
                  show (match writeAllF
                          { st1 with stks :=
                            (⟨flushedStack f ++ [Token.HeadingStart level],
                              f.context, []⟩ : Frame) :: rest } toks with
                        | none => none
                        | some st4 =>
                          match writeTokF st4 Token.HeadingEnd with
                          | none => none
                          | some st5 =>
                            some { st5 with glob := st5.glob ^^^ GL_HEADING }) = _
                  rw [hw]
                  show (match writeTokF { st1 with stks := f4 :: rest }
                          Token.HeadingEnd with
                        | none => none
                        | some st5 =>
                          some { st5 with glob := st5.glob ^^^ GL_HEADING }) = _
                  rw [writeTokF_eq (show ({ st1 with stks := f4 :: rest } : Tk).stks =
                    f4 :: rest from rfl)]
                  show some ((⟨st1.text, st1.head,
                      (⟨flushedStack f4 ++ [Token.HeadingEnd], f4.context, []⟩ :
                        Frame) :: rest, st1.glob ^^^ GL_HEADING⟩ : Tk)) = _
                  rw [y1, y2, show (1:Nat) ^^^ GL_HEADING = 0 from by decide]
                have hpre2 : LoopPre
                    ⟨st.text, st1.head + 1,
                      (⟨flushedStack f4 ++ [Token.HeadingEnd], f4.context, []⟩ :
                        Frame) :: rest, 0⟩
                    ⟨flushedStack f4 ++ [Token.HeadingEnd], f4.context, []⟩
                    rest a := by
                  have hnatf2 : natB (flushedStack
                      (⟨flushedStack f ++ [Token.HeadingStart level], f.context, []⟩ :
                        Frame)) = true := by
                    rw [flushedStack_nilbuf]
                    exact natB_snoc_of_nonText hnat rfl
                  have hendf2 : endsNT (⟨flushedStack f ++ [Token.HeadingStart level],
                      f.context, []⟩ : Frame).stack = true := by
                    show endsNT (flushedStack f ++ [Token.HeadingStart level]) = true
                    rw [endsNT_append_singleton]
                    rfl
                  refine ⟨rfl, hsegs, Nat.zero_le 1, ?_, ?_, ?_, ?_, ?_, ?_, ?_, ?_⟩
                  · rw [hfc4']
                    exact hctx
                  · intro hx
                    exfalso
                    rw [hfc4'] at hx
                    have h1 := hgl hx
                    omega
                  · rw [flushedStack_nilbuf]
                    exact natB_snoc_of_nonText (hwnat hnatf2 hendf2 ynat) rfl
                  · show endsNT (flushedStack f4 ++ [Token.HeadingEnd]) = true
                    rw [endsNT_append_singleton]
                    rfl
                  · rw [flushedStack_nilbuf, levOKB_append, hwlev,
                      flushedStack_nilbuf, levOKB_append, hlev, ylev]
                    simp [levOKB]
                    omega
                  · intro hg
                    exact absurd hg (show ¬((0:Nat) = 1) by decide)
                  · show a ≤ st1.head + 1
                    omega
                  · intro lv
                    show renderToks (flushedStack
                        ⟨flushedStack f4 ++ [Token.HeadingEnd], f4.context, []⟩) lv =
                      joinSlice st.text a (st1.head + 1 - a)
                    have hlevA4 : levelAfter (flushedStack f4) lv = level := by
                      rw [hwlevA lv, levelAfter_append,
                        levelAfter_of_noHead toks ynoh, flushedStack_nilbuf,
                        levelAfter_append]
                      simp [levelAfter]
                    have hsplit : joinSlice st.text a (st1.head + 1 - a) =
                        joinSlice st.text a (st.head - a) ++
                          (List.replicate
                            (1 + countEqSegs (st.text.drop (st.head + 1))) '=' ++
                           (renderToks toks (levelAfter
                             (flushedStack f ++ [Token.HeadingStart level]) lv) ++
                            List.replicate level '=')) := by
                      rw [show st1.head + 1 - a = (st.head - a) +
                        ((1 + countEqSegs (st.text.drop (st.head + 1))) +
                          (st1.head + 1 - (st.head +
                            (1 + countEqSegs (st.text.drop (st.head + 1)))))) from
                        by omega, joinSlice_add,
                        show a + (st.head - a) = st.head from by omega, joinSlice_add,
                        eqRun_slice hcurEq,
                        ← yr (levelAfter
                          (flushedStack f ++ [Token.HeadingStart level]) lv)]
                    rw [flushedStack_nilbuf, renderToks_append, hlevA4,
                      show renderToks [Token.HeadingEnd] level =
                        List.replicate level '=' from by simp [renderToks],
                      hwr lv, renderToks_append, flushedStack_nilbuf,
                      renderToks_append,
                      show renderToks [Token.HeadingStart level]
                        (levelAfter (flushedStack f) lv) =
                        List.replicate level '=' from by simp [renderToks],
                      hcov lv, hsplit,
                      show List.replicate
                        (1 + countEqSegs (st.text.drop (st.head + 1))) ('=' : Char) =
                        List.replicate level '=' from by rw [hlevEq]]
                    simp only [List.append_assoc]
                have hfuel2 : st.text.length + 1 ≤ fuel +
                    min (st1.head + 1) st.text.length := by omega
                obtain ⟨r, heqr, hpost⟩ := ih _ _ _ _ hpre2 hfuel2
                refine ⟨r, ?_, ?_⟩
                · rw [heqr0']
                  show (match headingAfter st.head
                          (1 + countEqSegs (st.text.drop (st.head + 1)))
                          (Res.ok (ParseVal.heading toks level) st1) with
                        | none => none
                        | some st2 =>
                          parseLoopF fuel { st2 with head := st2.head + 1 }) = some r
                  rw [hhaOk]
                  exact heqr
                · cases r with
                  | ok v2 st2 =>
                    have hpost' : OkPost st.text 0 (st1.head + 1) f4.context rest a
                        v2 st2 := hpost
                    rw [hfc4'] at hpost'
                    exact OkPost_mono_head hpost'
                      (show st.head ≤ st1.head + 1 from by omega)
                  | bad st2 =>
                    have hpost' : BadPost st.text 0 f4.context rest st2 := hpost
                    rw [hfc4'] at hpost'
                    exact hpost'
        rw [if_neg hE]
        by_cases hF : s = ['='] ∧ topContext st &&& HEADING ≠ 0
        · rw [if_pos hF]
          obtain ⟨hF1, hF2⟩ := hF
          rw [htop] at hF2
          rw [htop]
          have hglob1 : st.glob = 1 := hgl hF2
          have hcurEq : st.text.getD st.head [] = ['='] := by
            rw [List.getD_eq_getElem?_getD, hgets, hF1]
            rfl
          have hbestle : st.head + (1 + countEqSegs (st.text.drop (st.head + 1))) ≤
              st.text.length := by
            have hc := countEqSegs_le (st.text.drop (st.head + 1))
            rw [List.length_drop] at hc
            omega
          have hpreN : LoopPre
              ⟨st.text, st.head + (1 + countEqSegs (st.text.drop (st.head + 1))),
                (⟨[], f.context, []⟩ : Frame) :: st.stks, st.glob⟩
              ⟨[], f.context, []⟩ (f :: rest)
              (st.head + (1 + countEqSegs (st.text.drop (st.head + 1)))) := by
            refine ⟨?_, hsegs, hglob, hctx, fun _ => hglob1, rfl, rfl, rfl,
              fun _ => rfl, Nat.le_refl _, ?_⟩
            · show (⟨[], f.context, []⟩ : Frame) :: st.stks = _
              rw [hstks]
            · intro lv
              rw [Nat.sub_self, joinSlice_zero]
              rfl
          have hfuelN : st.text.length + 1 ≤ fuel +
              min (st.head + (1 + countEqSegs (st.text.drop (st.head + 1))))
                st.text.length := by omega
          obtain ⟨r0, heqr0, hpost0⟩ := ih _ _ _ _ hpreN hfuelN
          have heqr0' : parseLoopF fuel
              (push f.context
                { st with head := st.head +
                  (1 + countEqSegs (st.text.drop (st.head + 1))) }) = some r0 :=
            heqr0
          cases r0 with
          | bad st1 =>
            have hb : BadPost st.text st.glob f.context (f :: rest) st1 := hpost0
            obtain ⟨hb1, hb2, hb3, _⟩ := hb
            obtain ⟨bh, hbh⟩ : ∃ bh, st1 = ⟨st.text, bh, f :: rest, st.glob⟩ := by
              refine ⟨st1.head, ?_⟩
              obtain ⟨a1, a2, a3, a4⟩ := st1
              simp_all
            by_cases hlb : min (intLog2 (f.context / HEADING_LEVEL_1) + 1)
                (min (1 + countEqSegs (st.text.drop (st.head + 1))) 6) <
                1 + countEqSegs (st.text.drop (st.head + 1))
            · have hhe : headingEndAfter st.head
                  (1 + countEqSegs (st.text.drop (st.head + 1)))
                  (min (intLog2 (f.context / HEADING_LEVEL_1) + 1)
                    (min (1 + countEqSegs (st.text.drop (st.head + 1))) 6))
                  (Res.bad st1) =
                  some (Res.ok (ParseVal.heading
                    (flushedStack (wtFrame f (List.replicate
                      (1 + countEqSegs (st.text.drop (st.head + 1)) -
                        min (intLog2 (f.context / HEADING_LEVEL_1) + 1)
                          (min (1 + countEqSegs (st.text.drop (st.head + 1))) 6))
                      '=')))
                    (min (intLog2 (f.context / HEADING_LEVEL_1) + 1)
                      (min (1 + countEqSegs (st.text.drop (st.head + 1))) 6)))
                    ⟨st.text,
                      st.head + (1 + countEqSegs (st.text.drop (st.head + 1))) - 1,
                      rest, st.glob⟩) := by
                rw [hbh]
                show (match (if min (intLog2 (f.context / HEADING_LEVEL_1) + 1)
                        (min (1 + countEqSegs (st.text.drop (st.head + 1))) 6) <
                        1 + countEqSegs (st.text.drop (st.head + 1)) then
                      writeTextF (⟨st.text, bh, f :: rest, st.glob⟩ : Tk)
                        (List.replicate
                          (1 + countEqSegs (st.text.drop (st.head + 1)) -
                            min (intLog2 (f.context / HEADING_LEVEL_1) + 1)
                              (min (1 + countEqSegs (st.text.drop (st.head + 1))) 6))
                          '=')
                    else some (⟨st.text, bh, f :: rest, st.glob⟩ : Tk)) with
                    | none => none
                    | some st2 =>
                      match popF { st2 with head := st.head +
                        (1 + countEqSegs (st.text.drop (st.head + 1))) - 1 } with
                      | none => none
                      | some (toks, st3) =>
                        some (Res.ok (ParseVal.heading toks
                          (min (intLog2 (f.context / HEADING_LEVEL_1) + 1)
                            (min (1 + countEqSegs (st.text.drop (st.head + 1))) 6)))
                          st3)) = _
                rw [if_pos hlb, writeTextF_eq (show
                  (⟨st.text, bh, f :: rest, st.glob⟩ : Tk).stks = f :: rest
                  from rfl)]
                show (match popF (⟨st.text,
                      st.head + (1 + countEqSegs (st.text.drop (st.head + 1))) - 1,
                      wtFrame f (List.replicate
                        (1 + countEqSegs (st.text.drop (st.head + 1)) -
                          min (intLog2 (f.context / HEADING_LEVEL_1) + 1)
                            (min (1 + countEqSegs (st.text.drop (st.head + 1))) 6))
                        '=') :: rest, st.glob⟩ : Tk) with
                    | none => none
                    | some (toks, st3) =>
                      some (Res.ok (ParseVal.heading toks
                        (min (intLog2 (f.context / HEADING_LEVEL_1) + 1)
                          (min (1 + countEqSegs (st.text.drop (st.head + 1))) 6)))
                        st3)) = _
                rw [popF_eq (show (⟨st.text,
                  st.head + (1 + countEqSegs (st.text.drop (st.head + 1))) - 1,
                  wtFrame f (List.replicate
                    (1 + countEqSegs (st.text.drop (st.head + 1)) -
                      min (intLog2 (f.context / HEADING_LEVEL_1) + 1)
                        (min (1 + countEqSegs (st.text.drop (st.head + 1))) 6))
                    '=') :: rest, st.glob⟩ : Tk).stks =
                  wtFrame f (List.replicate
                    (1 + countEqSegs (st.text.drop (st.head + 1)) -
                      min (intLog2 (f.context / HEADING_LEVEL_1) + 1)
                        (min (1 + countEqSegs (st.text.drop (st.head + 1))) 6))
                    '=') :: rest from rfl)]
              refine ⟨Res.ok (ParseVal.heading
                  (flushedStack (wtFrame f (List.replicate
                    (1 + countEqSegs (st.text.drop (st.head + 1)) -
                      min (intLog2 (f.context / HEADING_LEVEL_1) + 1)
                        (min (1 + countEqSegs (st.text.drop (st.head + 1))) 6))
                    '=')))
                  (min (intLog2 (f.context / HEADING_LEVEL_1) + 1)
                    (min (1 + countEqSegs (st.text.drop (st.head + 1))) 6)))
                  ⟨st.text,
                    st.head + (1 + countEqSegs (st.text.drop (st.head + 1))) - 1,
                    rest, st.glob⟩, ?_, ?_⟩
              · rw [heqr0']
                show headingEndAfter st.head
                    (1 + countEqSegs (st.text.drop (st.head + 1)))
                    (min (intLog2 (f.context / HEADING_LEVEL_1) + 1)
                      (min (1 + countEqSegs (st.text.drop (st.head + 1))) 6))
                    (Res.bad st1) = _
                exact hhe
              · refine ⟨rfl, rfl, rfl,
                  show st.head ≤ st.head +
                    (1 + countEqSegs (st.text.drop (st.head + 1))) - 1 from by omega,
                  hF2, wtFrame_natB _ hnat hends, ?_, ?_, by omega, by omega, ?_⟩
                · rw [wtFrame_levOK]
                  exact hlev
                · rw [wtFrame_noHead]
                  exact hnoh hglob1
                · intro lv
                  show renderToks (flushedStack (wtFrame f (List.replicate
                      (1 + countEqSegs (st.text.drop (st.head + 1)) -
                        min (intLog2 (f.context / HEADING_LEVEL_1) + 1)
                          (min (1 + countEqSegs (st.text.drop (st.head + 1))) 6))
                      '='))) lv ++
                    List.replicate
                      (min (intLog2 (f.context / HEADING_LEVEL_1) + 1)
                        (min (1 + countEqSegs (st.text.drop (st.head + 1))) 6)) '=' =
                    joinSlice st.text a
                      (st.head + (1 + countEqSegs (st.text.drop (st.head + 1))) - 1 +
                        1 - a)
                  rw [wtFrame_render, hcov lv, List.append_assoc,
                    show List.replicate
                      (1 + countEqSegs (st.text.drop (st.head + 1)) -
                        min (intLog2 (f.context / HEADING_LEVEL_1) + 1)
                          (min (1 + countEqSegs (st.text.drop (st.head + 1))) 6))
                      ('=' : Char) ++
                      List.replicate
                        (min (intLog2 (f.context / HEADING_LEVEL_1) + 1)
                          (min (1 + countEqSegs (st.text.drop (st.head + 1))) 6))
                        '=' =
                      List.replicate
                        (1 + countEqSegs (st.text.drop (st.head + 1))) '='
                      from by rw [← List.replicate_add]; congr 1; omega,
                    cov_extendRun hale (eqRun_slice hcurEq),
                    show st.head + (1 + countEqSegs (st.text.drop (st.head + 1))) -
                      1 + 1 - a =
                      st.head + (1 + countEqSegs (st.text.drop (st.head + 1))) - a
                      from by omega]
            · have hhe : headingEndAfter st.head
                  (1 + countEqSegs (st.text.drop (st.head + 1)))
                  (min (intLog2 (f.context / HEADING_LEVEL_1) + 1)
                    (min (1 + countEqSegs (st.text.drop (st.head + 1))) 6))
                  (Res.bad st1) =
                  some (Res.ok (ParseVal.heading (flushedStack f)
                    (min (intLog2 (f.context / HEADING_LEVEL_1) + 1)
                      (min (1 + countEqSegs (st.text.drop (st.head + 1))) 6)))
                    ⟨st.text,
                      st.head + (1 + countEqSegs (st.text.drop (st.head + 1))) - 1,
                      rest, st.glob⟩) := by
                rw [hbh]
                show (match (if min (intLog2 (f.context / HEADING_LEVEL_1) + 1)
                        (min (1 + countEqSegs (st.text.drop (st.head + 1))) 6) <
                        1 + countEqSegs (st.text.drop (st.head + 1)) then
                      writeTextF (⟨st.text, bh, f :: rest, st.glob⟩ : Tk)
                        (List.replicate
                          (1 + countEqSegs (st.text.drop (st.head + 1)) -
                            min (intLog2 (f.context / HEADING_LEVEL_1) + 1)
                              (min (1 + countEqSegs (st.text.drop (st.head + 1))) 6))
                          '=')
                    else some (⟨st.text, bh, f :: rest, st.glob⟩ : Tk)) with
                    | none => none
                    | some st2 =>
                      match popF { st2 with head := st.head +
                        (1 + countEqSegs (st.text.drop (st.head + 1))) - 1 } with
                      | none => none
                      | some (toks, st3) =>
                        some (Res.ok (ParseVal.heading toks
                          (min (intLog2 (f.context / HEADING_LEVEL_1) + 1)
                            (min (1 + countEqSegs (st.text.drop (st.head + 1))) 6)))
                          st3)) = _
                rw [if_neg hlb]
                show (match popF (⟨st.text,
                      st.head + (1 + countEqSegs (st.text.drop (st.head + 1))) - 1,
                      f :: rest, st.glob⟩ : Tk) with
                    | none => none
                    | some (toks, st3) =>
                      some (Res.ok (ParseVal.heading toks
                        (min (intLog2 (f.context / HEADING_LEVEL_1) + 1)
                          (min (1 + countEqSegs (st.text.drop (st.head + 1))) 6)))
                        st3)) = _
                rw [popF_eq (show (⟨st.text,
                  st.head + (1 + countEqSegs (st.text.drop (st.head + 1))) - 1,
                  f :: rest, st.glob⟩ : Tk).stks = f :: rest from rfl)]
              have hlvEq : min (intLog2 (f.context / HEADING_LEVEL_1) + 1)
                  (min (1 + countEqSegs (st.text.drop (st.head + 1))) 6) =
                  1 + countEqSegs (st.text.drop (st.head + 1)) := by omega
              refine ⟨Res.ok (ParseVal.heading (flushedStack f)
                  (min (intLog2 (f.context / HEADING_LEVEL_1) + 1)
                    (min (1 + countEqSegs (st.text.drop (st.head + 1))) 6)))
                  ⟨st.text,
                    st.head + (1 + countEqSegs (st.text.drop (st.head + 1))) - 1,
                    rest, st.glob⟩, ?_, ?_⟩
              · rw [heqr0']
                show headingEndAfter st.head
                    (1 + countEqSegs (st.text.drop (st.head + 1)))
                    (min (intLog2 (f.context / HEADING_LEVEL_1) + 1)
                      (min (1 + countEqSegs (st.text.drop (st.head + 1))) 6))
                    (Res.bad st1) = _
                exact hhe
              · refine ⟨rfl, rfl, rfl,
                  show st.head ≤ st.head +
                    (1 + countEqSegs (st.text.drop (st.head + 1))) - 1 from by omega,
                  hF2, hnat, hlev, hnoh hglob1, by omega, by omega, ?_⟩
                intro lv
                show renderToks (flushedStack f) lv ++
                    List.replicate
                      (min (intLog2 (f.context / HEADING_LEVEL_1) + 1)
                        (min (1 + countEqSegs (st.text.drop (st.head + 1))) 6)) '=' =
                  joinSlice st.text a
                    (st.head + (1 + countEqSegs (st.text.drop (st.head + 1))) - 1 +
                      1 - a)
                rw [hcov lv,
                  show List.replicate
                    (min (intLog2 (f.context / HEADING_LEVEL_1) + 1)
                      (min (1 + countEqSegs (st.text.drop (st.head + 1))) 6))
                    ('=' : Char) =
                    List.replicate
                      (1 + countEqSegs (st.text.drop (st.head + 1))) '='
                    from by rw [hlvEq],
                  cov_extendRun hale (eqRun_slice hcurEq),
                  show st.head + (1 + countEqSegs (st.text.drop (st.head + 1))) -
                    1 + 1 - a =
                    st.head + (1 + countEqSegs (st.text.drop (st.head + 1))) - a
                    from by omega]
          | ok v st1 =>
            cases v with
            | plain toks =>
              exfalso
              have hp : OkPost st.text st.glob
                  (st.head + (1 + countEqSegs (st.text.drop (st.head + 1))))
                  f.context (f :: rest)
                  (st.head + (1 + countEqSegs (st.text.drop (st.head + 1))))
                  (ParseVal.plain toks) st1 := hpost0
              obtain ⟨_, _, _, _, x5, _⟩ := hp
              exact hF2 x5
            | heading after afterLevel =>
              have hp : OkPost st.text st.glob
                  (st.head + (1 + countEqSegs (st.text.drop (st.head + 1))))
                  f.context (f :: rest)
                  (st.head + (1 + countEqSegs (st.text.drop (st.head + 1))))
                  (ParseVal.heading after afterLevel) st1 := hpost0
              obtain ⟨y1, y2, y3, y4, y5, ynat, ylev, ynoh, yl1, yl2, yr⟩ := hp
              rcases @writeAllSpec
                  { st1 with stks := wtFrame f (List.replicate
                    (1 + countEqSegs (st.text.drop (st.head + 1))) '=') :: rest }
                  (wtFrame f (List.replicate
                    (1 + countEqSegs (st.text.drop (st.head + 1))) '='))
                  rest after rfl with
                ⟨f4, hw, hfc4, hfb4, hfs4, hwr, hwnat, hwlev, hwnoh, hwends, hwlevA⟩
              have hhe : headingEndAfter st.head
                  (1 + countEqSegs (st.text.drop (st.head + 1)))
                  (min (intLog2 (f.context / HEADING_LEVEL_1) + 1)
                    (min (1 + countEqSegs (st.text.drop (st.head + 1))) 6))
                  (Res.ok (ParseVal.heading after afterLevel) st1) =
                  some (Res.ok (ParseVal.heading (flushedStack f4) afterLevel)
                    ⟨st.text, st1.head, rest, st.glob⟩) := by
                show (match writeTextF st1 (List.replicate
                        (1 + countEqSegs (st.text.drop (st.head + 1))) '=') with
                      | none => none
                      | some st2 =>
                        match writeAllF st2 after with
                        | none => none
                        | some st3 =>
                          match popF st3 with
                          | none => none
                          | some (toks, st4) =>
                            some (Res.ok (ParseVal.heading toks afterLevel)
                              st4)) = _
                rw [writeTextF_eq y3]
                show (match writeAllF { st1 with stks := wtFrame f (List.replicate
                        (1 + countEqSegs (st.text.drop (st.head + 1))) '=') :: rest }
                        after with
                      | none => none
                      | some st3 =>
                        match popF st3 with
                        | none => none
                        | some (toks, st4) =>
                          some (Res.ok (ParseVal.heading toks afterLevel) st4)) = _
                rw [hw]
                show (match popF { st1 with stks := f4 :: rest } with
                      | none => none
                      | some (toks, st4) =>
                        some (Res.ok (ParseVal.heading toks afterLevel) st4)) = _
                rw [popF_eq (show ({ st1 with stks := f4 :: rest } : Tk).stks =
                  f4 :: rest from rfl)]
                show some (Res.ok (ParseVal.heading (flushedStack f4) afterLevel)
                    ({ st1 with stks := rest } : Tk)) = _
                rw [y1, y2]
              refine ⟨Res.ok (ParseVal.heading (flushedStack f4) afterLevel)
                  ⟨st.text, st1.head, rest, st.glob⟩, ?_, ?_⟩
              · rw [heqr0']
                show headingEndAfter st.head
                    (1 + countEqSegs (st.text.drop (st.head + 1)))
                    (min (intLog2 (f.context / HEADING_LEVEL_1) + 1)
                      (min (1 + countEqSegs (st.text.drop (st.head + 1))) 6))
                    (Res.ok (ParseVal.heading after afterLevel) st1) = _
                exact hhe
              · refine ⟨rfl, rfl, rfl, show st.head ≤ st1.head from by omega,
                  hF2, ?_, ?_, ?_, yl1, yl2, ?_⟩
                · exact hwnat (wtFrame_natB _ hnat hends) hends ynat
                · rw [hwlev, wtFrame_levOK, hlev, ylev]
                  rfl
                · rw [hwnoh, wtFrame_noHead, hnoh hglob1, ynoh]
                  rfl
                · intro lv
                  have hsplit : joinSlice st.text a (st1.head + 1 - a) =
                      joinSlice st.text a (st.head - a) ++
                        (List.replicate
                          (1 + countEqSegs (st.text.drop (st.head + 1))) '=' ++
                         (renderToks after (levelAfter (flushedStack
                           (wtFrame f (List.replicate
                             (1 + countEqSegs (st.text.drop (st.head + 1))) '=')))
                           lv) ++
                          List.replicate afterLevel '=')) := by
                    rw [show st1.head + 1 - a = (st.head - a) +
                      ((1 + countEqSegs (st.text.drop (st.head + 1))) +
                        (st1.head + 1 - (st.head +
                          (1 + countEqSegs (st.text.drop (st.head + 1)))))) from
                      by omega, joinSlice_add,
                      show a + (st.head - a) = st.head from by omega, joinSlice_add,
                      eqRun_slice hcurEq,
                      ← yr (levelAfter (flushedStack
                        (wtFrame f (List.replicate
                          (1 + countEqSegs (st.text.drop (st.head + 1))) '=')))
                        lv)]
                  show renderToks (flushedStack f4) lv ++
                      List.replicate afterLevel '=' =
                    joinSlice st.text a (st1.head + 1 - a)
                  rw [hwr lv, renderToks_append, wtFrame_render, hcov lv, hsplit]
                  simp only [List.append_assoc]
        rw [if_neg hF]
        by_cases hG : s = ['\n'] ∧ topContext st &&& HEADING ≠ 0
        · rw [if_pos hG, failRouteSt_eq hstks]
          obtain ⟨hG1, hG2⟩ := hG
          rw [htop] at hG2
          refine ⟨Res.bad { st with stks := rest }, rfl, rfl, rfl, rfl, ?_⟩
          rcases hcx with h | h | h | h | h | h | h | h | h | h <;>
            rw [h] at hG2 ⊢ <;>
            first | (exact absurd hG2 (by decide)) | decide
        rw [if_neg hG]
        by_cases hH : s = ['&']
        · rw [if_pos hH]
          have hcur : st.text.getD st.head [] = ['&'] := by
            rw [List.getD_eq_getElem?_getD, hgets, hH]
            rfl
          obtain ⟨st1, f', heqE, htx', hgl', hstks', hfc', hhd', hrnd', hnatI,
            hendsI, hlevI, hnohI⟩ := parseEntitySpec hstks hsegs hcur
          have hpre2 : LoopPre { st1 with head := st1.head + 1 } f' rest a := by
            refine ⟨hstks', ?_, ?_, ?_, ?_, hnatI hnat hends, hendsI hends,
              ?_, ?_, ?_, ?_⟩
            · show ∀ s ∈ st1.text, s ≠ []
              rw [htx']
              exact hsegs
            · show st1.glob ≤ 1
              rw [hgl']
              exact hglob
            · show f'.context ∈ ctxVals
              rw [hfc']
              exact hctx
            · intro hx
              show st1.glob = 1
              rw [hfc'] at hx
              rw [hgl']
              exact hgl hx
            · rw [hlevI]
              exact hlev
            · intro hg
              rw [hnohI]
              refine hnoh ?_
              rw [← hgl']
              exact hg
            · show a ≤ st1.head + 1
              omega
            · intro lv
              show renderToks (flushedStack f') lv =
                joinSlice st1.text a (st1.head + 1 - a)
              rw [htx', hrnd' lv, hcov lv]
              have hrun := cov_extendRun hale
                (rfl : joinSlice st.text st.head (st1.head + 1 - st.head) = _)
              rw [hrun, show st.head + (st1.head + 1 - st.head) - a =
                st1.head + 1 - a from by omega]
          have hfuel2 : st1.text.length + 1 ≤
              fuel + min (st1.head + 1) st1.text.length := by
            rw [htx']
            omega
          obtain ⟨r, heqr, hpost⟩ := ih _ _ _ _ hpre2 hfuel2
          refine ⟨r, ?_, ?_⟩
          · rw [heqE]
            exact heqr
          · cases r with
            | ok v st' =>
              have hpost' : OkPost st1.text st1.glob (st1.head + 1) f'.context
                  rest a v st' := hpost
              rw [htx', hgl', hfc'] at hpost'
              exact OkPost_mono_head hpost' (by omega)
            | bad st' =>
              have hpost' : BadPost st1.text st1.glob f'.context rest st' := hpost
              rw [htx', hgl', hfc'] at hpost'
              exact hpost'
        rw [if_neg hH]
        exact stepWriteText fuel ih
          ⟨hstks, hsegs, hglob, hctx, hgl, hnat, hends, hlev, hnoh, hale, hcov⟩
          hfuel hgets

/-! ## The capstone corollary and the claim theorems -/

/-- On a fresh tokenizer every input parses successfully to a plain token
list satisfying the structural invariants, and the tokens render back to
the input. -/
theorem runTokenize_spec (s : List Char) :
    ∃ toks st', runTokenize s = some (Res.ok (ParseVal.plain toks) st') ∧
      natB toks = true ∧ levOKB toks = true ∧
      ∀ lv, renderToks toks lv = s := by
  have hpre : LoopPre ⟨segmentChars s, 0, (⟨[], 0, []⟩ : Frame) :: [], 0⟩
      ⟨[], 0, []⟩ [] 0 := by
    refine ⟨rfl, segmentChars_ne_nil s, Nat.zero_le 1,
      show (0:Nat) ∈ ctxVals by decide, ?_, rfl, rfl, rfl, fun _ => rfl,
      Nat.le_refl 0, ?_⟩
    · intro hx
      exact absurd (show (0:Nat) &&& HEADING = 0 by decide) hx
    · intro lv
      rw [Nat.sub_self, joinSlice_zero]
      rfl
  have hfuel : (segmentChars s).length + 1 ≤
      ((segmentChars s).length + 4) + min 0 (segmentChars s).length := by omega
  obtain ⟨r, heqr, hpost⟩ := parseLoop_spec ((segmentChars s).length + 4)
    ⟨segmentChars s, 0, (⟨[], 0, []⟩ : Frame) :: [], 0⟩ ⟨[], 0, []⟩ [] 0 hpre hfuel
  cases r with
  | bad st'' =>
    exfalso
    obtain ⟨_, _, _, hbad⟩ := hpost
    exact hbad (show (0:Nat) &&& (TEMPLATE ||| HEADING) = 0 by decide)
  | ok v st'' =>
    cases v with
    | heading toks level =>
      exfalso
      obtain ⟨_, _, _, _, x5, _⟩ := hpost
      exact x5 (show (0:Nat) &&& HEADING = 0 by decide)
    | plain toks =>
      obtain ⟨x1, x2, x3, x4, x5, xnat, xlev, xnoh, xdisj⟩ := hpost
      refine ⟨toks, st'', heqr, xnat, xlev, ?_⟩
      rcases xdisj with ⟨_, _, hr⟩ | ⟨hbad, _⟩
      · intro lv
        rw [hr lv, List.drop_zero, segmentChars_flatten]
      · exact absurd (show (0:Nat) &&& TEMPLATE = 0 by decide) hbad

/-- Claim C1: `tokenize` on a fresh tokenizer terminates with a token list
for every input; the fuel `fuelFor` suffices, `none` (the `IndexError`
model) never occurs, and no `BadRoute` (`Res.bad`) escapes: malformed
constructs degrade to literal text inside a normal `Res.ok` result. -/
theorem C1_tokenize_total (s : List Char) :
    ∃ toks st', runTokenize s = some (Res.ok (ParseVal.plain toks) st') := by
  obtain ⟨toks, st', heq, _⟩ := runTokenize_spec s
  exact ⟨toks, st', heq⟩

/-- Claim C2: concatenating every `Text` token's string with the canonical
literal rendering of every non-`Text` token, in output order, reproduces
the input exactly (`renderToks` renders `{{`, `}}`, `|`, `=`, the `=`-runs
of `HeadingStart`/`HeadingEnd`, `&`, `#`, the stored hex char and `;`). -/
theorem C2_render_roundtrip (s : List Char) :
    ∃ toks st', runTokenize s = some (Res.ok (ParseVal.plain toks) st') ∧
      renderToks toks 0 = s := by
  obtain ⟨toks, st', heq, _, _, hr⟩ := runTokenize_spec s
  exact ⟨toks, st', heq, hr 0⟩

/-- Claim C3: the token list returned by `tokenize` never contains two
consecutive `Text` tokens (`natB`). -/
theorem C3_no_adjacent_text (s : List Char) :
    ∃ toks st', runTokenize s = some (Res.ok (ParseVal.plain toks) st') ∧
      natB toks = true := by
  obtain ⟨toks, st', heq, hnat, _⟩ := runTokenize_spec s
  exact ⟨toks, st', heq, hnat⟩

/-- Claim C4: on a bad route `_parse_template` restores the head to the
position of the first `{` and writes exactly one `{` as literal text (the
segment under the restored head); consequently `tokenize("{{foo")` returns
exactly `[Text("{{foo")]`. -/
theorem C4_template_bad_route :
    (∀ (st1 : Tk) (reset : Nat), st1.text.getD reset [] = ['{'] →
      tmplAfter reset (Res.bad st1) = writeTextF { st1 with head := reset } ['{']) ∧
    (∃ st', runTokenize ['{', '{', 'f', 'o', 'o'] =
      some (Res.ok (ParseVal.plain [Token.Text ['{', '{', 'f', 'o', 'o']]) st')) := by
  constructor
  · intro st1 reset hget
    have hread : readVal { st1 with head := reset } 0 false =
        ReadVal.seg ['{'] := by
      rw [readVal_zero]
      show (match st1.text[reset]? with
            | some u => ReadVal.seg u
            | none => ReadVal.END) = ReadVal.seg ['{']
      rw [getD_some (by decide) hget]
    show (match readVal { st1 with head := reset } 0 false with
          | ReadVal.seg u => writeTextF { st1 with head := reset } u
          | _ => none) = writeTextF { st1 with head := reset } ['{']
    rw [hread]
  · exact ⟨⟨[['{'], ['{'], ['f', 'o', 'o']], 3, [], 0⟩, by decide⟩

/-- Claim C4 witness: the bad-route equation of `_parse_template` at a
concrete state whose segment under the reset head is `{`. -/
theorem C4_template_bad_route_witness :
    tmplAfter 0 (Res.bad ⟨[['{'], ['{']], 9, [⟨[], 0, []⟩], 0⟩) =
      writeTextF { (⟨[['{'], ['{']], 9, [⟨[], 0, []⟩], 0⟩ : Tk) with head := 0 }
        ['{'] :=
  C4_template_bad_route.1 ⟨[['{'], ['{']], 9, [⟨[], 0, []⟩], 0⟩ 0 (by decide)

/-- Claim C5: `_verify_template_name` fails exactly when the
whitespace-trimmed concatenation of the name frame's `Text` strings is
non-empty and still contains a newline (`badName`); so an interior newline
degrades the template to literal text while purely leading/trailing
newlines are accepted. -/
theorem C5_template_name_newline :
    (∃ st', runTokenize ['{', '{', 'f', 'o', 'o', '\n', 'b', 'a', 'r', '}', '}'] =
      some (Res.ok (ParseVal.plain
        [Token.Text ['{', '{', 'f', 'o', 'o', '\n', 'b', 'a', 'r', '}', '}']])
        st')) ∧
    (∃ st', runTokenize ['{', '{', '\n', ' ', 'f', 'o', 'o', ' ', '\n', '}', '}'] =
      some (Res.ok (ParseVal.plain
        [Token.TemplateOpen, Token.Text ['\n', ' ', 'f', 'o', 'o', ' ', '\n'],
          Token.TemplateClose]) st')) ∧
    (∀ (st : Tk) (f : Frame) (rest : List Frame), st.stks = f :: rest →
      verifyTemplateName st =
        some (if badName (flushedStack f) = true
          then Res.bad { st with stks := rest }
          else Res.ok () { st with stks := flushFrame f :: rest })) := by
  refine ⟨⟨⟨[['{'], ['{'], ['f', 'o', 'o'], ['\n'], ['b', 'a', 'r'], ['}'], ['}']],
      7, [], 0⟩, by decide⟩,
    ⟨⟨[['{'], ['{'], ['\n'], [' ', 'f', 'o', 'o', ' '], ['\n'], ['}'], ['}']],
      7, [], 0⟩, by decide⟩, ?_⟩
  intro st f rest h
  exact verifySpec h

/-- Claim C5 witness: the `verifyTemplateName` characterization at a
concrete one-frame state whose name text has an interior newline. -/
theorem C5_template_name_newline_witness :
    verifyTemplateName (⟨[], 0, [⟨[Token.Text ['f', '\n', 'b']], 1, []⟩], 0⟩ : Tk) =
      some (if badName (flushedStack ⟨[Token.Text ['f', '\n', 'b']], 1, []⟩) = true
        then Res.bad { (⟨[], 0, [⟨[Token.Text ['f', '\n', 'b']], 1, []⟩], 0⟩ : Tk)
          with stks := [] }
        else Res.ok () { (⟨[], 0, [⟨[Token.Text ['f', '\n', 'b']], 1, []⟩], 0⟩ : Tk)
          with stks := flushFrame ⟨[Token.Text ['f', '\n', 'b']], 1, []⟩ :: [] }) :=
  C5_template_name_newline.2.2 ⟨[], 0, [⟨[Token.Text ['f', '\n', 'b']], 1, []⟩], 0⟩
    ⟨[Token.Text ['f', '\n', 'b']], 1, []⟩ [] rfl

/-- Claim C6: in `"== a == b =="` the rightmost `=`-run terminates the
heading and the earlier surplus `=` characters become literal text inside
the title. -/
theorem C6_rightmost_run_wins :
    ∃ st', runTokenize
        ['=', '=', ' ', 'a', ' ', '=', '=', ' ', 'b', ' ', '=', '='] =
      some (Res.ok (ParseVal.plain
        [Token.HeadingStart 2, Token.Text [' ', 'a', ' ', '=', '=', ' ', 'b', ' '],
          Token.HeadingEnd]) st') :=
  ⟨⟨[['='], ['='], [' ', 'a', ' '], ['='], ['='], [' ', 'b', ' '], ['='], ['=']],
    8, [], 0⟩, by decide⟩

/-- Claim C7: every `HeadingStart` level in the output of `tokenize` lies
in `{1..6}` (`levOKB`); a heading opened by seven `=` yields
`HeadingStart 6` with the surplus `=` as literal text. -/
theorem C7_heading_level_bound :
    (∀ s : List Char, ∃ toks st',
      runTokenize s = some (Res.ok (ParseVal.plain toks) st') ∧
        levOKB toks = true) ∧
    (∃ st', runTokenize
        ['=', '=', '=', '=', '=', '=', '=', ' ', 'x', ' ',
          '=', '=', '=', '=', '=', '=', '='] =
      some (Res.ok (ParseVal.plain
        [Token.HeadingStart 6, Token.Text ['=', ' ', 'x', ' ', '='],
          Token.HeadingEnd]) st')) := by
  constructor
  · intro s
    obtain ⟨toks, st', heq, _, hlev, _⟩ := runTokenize_spec s
    exact ⟨toks, st', heq, hlev⟩
  · exact ⟨⟨[['='], ['='], ['='], ['='], ['='], ['='], ['='], [' ', 'x', ' '],
      ['='], ['='], ['='], ['='], ['='], ['='], ['=']], 15, [], 0⟩, by decide⟩

/-- Claim C8: a numeric entity's validation tail succeeds (writing
`Text`/`HTMLEntityEnd`) exactly when the digit string's value (base 16
when hexadecimal, else base 10) satisfies `1 ≤ n ≤ 0x10FFFF`, and fails
the route otherwise; `"&#0;"` degrades to literal text while
`"&#x10FFFF;"` yields the entity tokens. -/
theorem C8_numeric_entity_range :
    (∀ (cur : List Char) (hexadecimal : Bool) (tx : List (List Char))
      (hd0 gl : Nat) (gstack : List Token) (f : Frame) (rest : List Frame),
      cur.all (if hexadecimal = true then isHexDigitC else Char.isDigit) = true →
      tx.getD (hd0 + 1) [] = [';'] →
      ((1 ≤ (if hexadecimal = true then hexVal cur else decVal cur) ∧
          (if hexadecimal = true then hexVal cur else decVal cur) ≤ 0x10FFFF) →
        reallyParseEntity.entityTail ⟨tx, hd0, ⟨gstack, 0, []⟩ :: f :: rest, gl⟩
            cur true hexadecimal =
          some (Res.ok () ⟨tx, hd0 + 1,
            ⟨gstack ++ [Token.Text cur, Token.HTMLEntityEnd], 0, []⟩ :: f :: rest,
            gl⟩)) ∧
      (¬(1 ≤ (if hexadecimal = true then hexVal cur else decVal cur) ∧
          (if hexadecimal = true then hexVal cur else decVal cur) ≤ 0x10FFFF) →
        reallyParseEntity.entityTail ⟨tx, hd0, ⟨gstack, 0, []⟩ :: f :: rest, gl⟩
            cur true hexadecimal =
          some (Res.bad ⟨tx, hd0 + 1, f :: rest, gl⟩))) ∧
    (∃ st', runTokenize ['&', '#', '0', ';'] =
      some (Res.ok (ParseVal.plain [Token.Text ['&', '#', '0', ';']]) st')) ∧
    (∃ st', runTokenize ['&', '#', 'x', '1', '0', 'F', 'F', 'F', 'F', ';'] =
      some (Res.ok (ParseVal.plain
        [Token.HTMLEntityStart, Token.HTMLEntityNumeric, Token.HTMLEntityHex 'x',
          Token.Text ['1', '0', 'F', 'F', 'F', 'F'], Token.HTMLEntityEnd]) st')) := by
  refine ⟨?_, ⟨⟨[['&'], ['#'], ['0'], [';']], 4, [], 0⟩, by decide⟩,
    ⟨⟨[['&'], ['#'], ['x', '1', '0', 'F', 'F', 'F', 'F'], [';']], 4, [], 0⟩,
      by decide⟩⟩
  intro cur hexadecimal tx hd0 gl gstack f rest hval hsemi
  have hsc : readVal ⟨tx, hd0 + 1, (⟨gstack, 0, []⟩ : Frame) :: f :: rest, gl⟩
      0 false = ReadVal.seg [';'] := by
    rw [readVal_zero]
    show (match tx[hd0 + 1]? with
          | some u => ReadVal.seg u
          | none => ReadVal.END) = ReadVal.seg [';']
    rw [getD_some (by decide) hsemi]
  constructor
  · intro hrange
    have hrange' : ¬((if hexadecimal = true then hexVal cur else decVal cur) < 1 ∨
        (if hexadecimal = true then hexVal cur else decVal cur) > 0x10FFFF) := by
      omega
    simp only [reallyParseEntity.entityTail, if_true]
    rw [if_neg (not_not_intro hval), if_neg (not_not_intro hsc), if_neg hrange']
    simp [writeTokF, pushTextbufferF, mapTop, flushFrame, flushedStack]
  · intro hrange
    have hrange' : ((if hexadecimal = true then hexVal cur else decVal cur) < 1 ∨
        (if hexadecimal = true then hexVal cur else decVal cur) > 0x10FFFF) := by
      omega
    simp only [reallyParseEntity.entityTail, if_true]
    rw [if_neg (not_not_intro hval), if_neg (not_not_intro hsc), if_pos hrange',
      failRouteSt_eq rfl]

/-- Claim C8 witness: the range validation at the concrete digit string
`"0"` (value 0, out of range: the route fails). -/
theorem C8_numeric_entity_range_witness :
    reallyParseEntity.entityTail
        ⟨[[';'], [';']], 0, (⟨[], 0, []⟩ : Frame) :: (⟨[], 0, []⟩ : Frame) :: [], 0⟩
        ['0'] true false =
      some (Res.bad ⟨[[';'], [';']], 1, [⟨[], 0, []⟩], 0⟩) :=
  (C8_numeric_entity_range.1 ['0'] false [[';'], [';']] 0 0 [] ⟨[], 0, []⟩ []
    (by decide) (by decide)).2 (by decide)

/-- Claim C9 counterexample: with `text = ["a"]`, `head = 5`, `delta = -6`
and `wrap = true` we have `head + delta < 0` and `|delta| = 6 > 1 = len`,
so the claim predicts `START` for every `head`; but the code tests
`|head + delta| = 1 ≤ len` and wraps, returning the segment `"a"`. -/
theorem C9_read_wrap_counterexample :
    ((5 : Nat) : Int) + (-6) < 0 ∧
    ¬((-6 : Int).natAbs ≤ ([[ 'a' ]] : List (List Char)).length) ∧
    readVal ⟨[['a']], 5, [], 0⟩ (-6) true = ReadVal.seg ['a'] := by decide

/-- Claim C9, amended: `_read` returns the `START` sentinel exactly when
`head + delta < 0` and (`wrap` is false or `|head + delta| > len(text)`):
the wrap exception is decided by the magnitude of the absolute index
`head + delta`, not of `delta`. -/
theorem C9_read_wrap_amended (st : Tk) (delta : Int) (wrap : Bool) :
    readVal st delta wrap = ReadVal.START ↔
      ((st.head : Int) + delta < 0 ∧
        (wrap = false ∨ ((st.head : Int) + delta).natAbs > st.text.length)) := by
  simp only [readVal]
  by_cases h1 : (st.head : Int) + delta < 0
  · rw [if_pos h1]
    by_cases h2 : wrap = false ∨
        ((st.head : Int) + delta).natAbs > st.text.length
    · rw [if_pos h2]
      simp [h1, h2]
    · rw [if_neg h2]
      simp [h1, h2]
  · rw [if_neg h1]
    rcases hx : st.text[((st.head : Int) + delta).toNat]? with _ | u <;>
      simp [h1]

/-- Claim C10: `tokenize` resets only `_text`, not `_head`; on a fresh
instance `tokenize("b")` yields `[Text("b")]`, but after `tokenize("a")`
has left `head = 1`, the second call `tokenize("b")` returns `[]`. -/
theorem C10_stateful_head :
    tokenize initTk ['a'] =
      some (Res.ok (ParseVal.plain [Token.Text ['a']]) ⟨[['a']], 1, [], 0⟩) ∧
    tokenize ⟨[['a']], 1, [], 0⟩ ['b'] =
      some (Res.ok (ParseVal.plain []) ⟨[['b']], 1, [], 0⟩) ∧
    tokenize initTk ['b'] =
      some (Res.ok (ParseVal.plain [Token.Text ['b']]) ⟨[['b']], 1, [], 0⟩) := by
  decide

end MWTok
